import Mathlib

/-!
Verification development for the akiscode/real_time_library repository.

The file contains shallow embeddings of three components of the library,
each translated from the C++ sources:

* the SPSC byte ring buffer (`src/librtlcpp/ring_buffer.cpp`),
* the amortized-resizing hash map (`src/librtlcpp/include/rtlcpp/map.hpp`,
  together with the vector it builds on,
  `src/librtlcpp/include/rtlcpp/vector.hpp`, and the prime table of
  `src/librtlcpp/include/rtlcpp/utility.hpp`),
* the reference-counting control block of the smart pointers
  (`src/librtlcpp/include/rtlcpp/memory.hpp`).

Machine integers (`uint32_t`, `size_t`) are modelled as `Nat`; every
subtraction and `%` in the embedding happens in a branch where the C
computation cannot wrap, so `Nat` subtraction coincides with the C
semantics there (this is noted at each definition where it matters).
Pointers into the byte buffer are modelled as indices, a pointer-typed
out-parameter that may stay untouched is an `Option`, and the allocator
is modelled as an oracle assigning success or failure to each
allocation, in program order.
-/

set_option maxHeartbeats 1600000
set_option maxRecDepth 16000

namespace RTL


/-! ## SPSC ring buffer (`src/librtlcpp/ring_buffer.cpp`)

The buffer bytes are modelled as a total function `Nat → Nat`; the C
object additionally stores `m_capacity`, `m_writable_capacity`
(derived: `capacity - 1` when `capacity > 0`), and the two indices.
The `input` pointer of `write`/`write_bytes` is modelled as the byte
sequence it points at, also a total function; a null input pointer is
not representable in this embedding (the corresponding early-returns
of the C code are noted where they occur). -/

structure RB where
  capacity : Nat
  buf : Nat → Nat
  readIndex : Nat
  writeIndex : Nat

/-- `m_writable_capacity`: `capacity - 1` when positive, else `0`. -/
def RB.writableCapacity (rb : RB) : Nat :=
  if 0 < rb.capacity then rb.capacity - 1 else 0

/-- `spsc_ringbuffer::get_bytes_written(write_index, read_index)`.
In the `else` branch the C code computes
`m_writable_capacity - read_index + 1U + write_index`; there
`read_index > write_index ≥ 0` and `read_index ≤ writable_capacity`,
so the `Nat` subtraction agrees with the `uint32_t` one. -/
def RB.getBytesWritten (rb : RB) (writeIndex readIndex : Nat) : Nat :=
  if readIndex ≤ writeIndex then
    writeIndex - readIndex
  else
    rb.writableCapacity - readIndex + 1 + writeIndex

/-- Number of bytes currently stored (`approx_size` seen single-threaded). -/
def RB.stored (rb : RB) : Nat :=
  rb.getBytesWritten rb.writeIndex rb.readIndex

/-- One `memcpy(&buf[dst], src, len)` on the modelled byte store:
positions `dst ≤ p < dst + len` receive `src (p - dst)`. -/
def memcpyAt (buf : Nat → Nat) (dst : Nat) (src : Nat → Nat) (len : Nat) :
    Nat → Nat :=
  fun p => if dst ≤ p ∧ p < dst + len then src (p - dst) else buf p

/-- `spsc_ringbuffer::priv_write(input, amt_bytes_to_write, write_index,
read_index)`, acting on the byte store.  In the `write_index >= read_index`
branch the C code unconditionally copies
`until_end_of_buffer = m_writable_capacity - write_index + 1U` bytes from
`input` (even when `amt_bytes_to_write` is smaller), then
`from_beginning_of_buffer` further bytes starting at
`input + until_end_of_buffer`.  Reads of `input` beyond the caller-provided
bytes are out of bounds in C; the model reads the total function instead
(see `RB.privWriteInputReadCount` for the exact number of bytes read). -/
def RB.privWrite (rb : RB) (input : Nat → Nat) (amt w r : Nat) :
    Nat → Nat :=
  if r ≤ w then
    let untilEnd := rb.writableCapacity - w + 1
    let fromBeginning := if amt < untilEnd then 0 else amt - untilEnd
    let buf1 := memcpyAt rb.buf w input untilEnd
    memcpyAt buf1 0 (fun i => input (untilEnd + i)) fromBeginning
  else
    memcpyAt rb.buf w input amt

/-- Exact number of bytes `priv_write` reads from `input`: the sum of the
two `memcpy` lengths in the wrapping branch, and `amt_bytes_to_write` in
the contiguous branch. -/
def RB.privWriteInputReadCount (rb : RB) (amt w r : Nat) : Nat :=
  if r ≤ w then
    let untilEnd := rb.writableCapacity - w + 1
    let fromBeginning := if amt < untilEnd then 0 else amt - untilEnd
    untilEnd + fromBeginning
  else
    amt

/-- `spsc_ringbuffer::write(input, sz)`.  Returns the C `bool` result and
the updated buffer.  The `input == nullptr` early-return (false) is not
representable; all other branches follow the source order. -/
def RB.write (rb : RB) (input : Nat → Nat) (sz : Nat) : Bool × RB :=
  if rb.writableCapacity < sz then (false, rb)
  else if sz = 0 then (true, rb)
  else
    let w := rb.writeIndex
    let r := rb.readIndex
    let bytesWritten := rb.getBytesWritten w r
    let spaceLeft := rb.writableCapacity - bytesWritten
    if spaceLeft < sz then (false, rb)
    else
      let amt := min sz spaceLeft
      (true, { rb with
                buf := rb.privWrite input amt w r
                writeIndex := (w + sz) % rb.capacity })

/-- Number of bytes `write(input, sz)` reads from `input` (0 on the
early-return paths that never touch `input`). -/
def RB.writeInputReadCount (rb : RB) (sz : Nat) : Nat :=
  if rb.writableCapacity < sz then 0
  else if sz = 0 then 0
  else
    let w := rb.writeIndex
    let r := rb.readIndex
    let bytesWritten := rb.getBytesWritten w r
    let spaceLeft := rb.writableCapacity - bytesWritten
    if spaceLeft < sz then 0
    else rb.privWriteInputReadCount (min sz spaceLeft) w r

/-- `spsc_ringbuffer::write_bytes(input, sz)`: returns the C `uint32_t`
result (bytes actually written) and the updated buffer.  Note that the
source advances `m_write_index` by the clamped `sz`, not by
`amt_bytes_to_write`. -/
def RB.writeBytes (rb : RB) (input : Nat → Nat) (sz0 : Nat) : Nat × RB :=
  let sz := min sz0 rb.writableCapacity
  if sz = 0 then (0, rb)
  else
    let w := rb.writeIndex
    let r := rb.readIndex
    let bytesWritten := rb.getBytesWritten w r
    let spaceLeft := rb.writableCapacity - bytesWritten
    let amt := min sz spaceLeft
    (amt, { rb with
             buf := rb.privWrite input amt w r
             writeIndex := (w + sz) % rb.capacity })

/-- `spsc_ringbuffer::read(output, max_read)`: returns the bytes the C
code copies into `output` (in order), the returned count, and the updated
buffer.  In the wrapping branch the C code copies `until_end_of_buffer`
bytes regardless of `amt_bytes_to_read`, which the output list mirrors. -/
def RB.read (rb : RB) (maxRead0 : Nat) : List Nat × Nat × RB :=
  let maxRead := min maxRead0 rb.writableCapacity
  if maxRead = 0 then ([], 0, rb)
  else
    let w := rb.writeIndex
    let r := rb.readIndex
    let bytesWritten := rb.getBytesWritten w r
    let amt := min maxRead bytesWritten
    let out :=
      if r ≤ w then
        (List.range amt).map (fun i => rb.buf (r + i))
      else
        let untilEnd := rb.writableCapacity - r + 1
        let fromBeginning := if amt < untilEnd then 0 else amt - untilEnd
        (List.range untilEnd).map (fun i => rb.buf (r + i)) ++
          (List.range fromBeginning).map rb.buf
    (out, amt, { rb with readIndex := (r + amt) % rb.capacity })

/-- `spsc_ringbuffer::alloc_contig(sz, end_of_buffer_ptr)`: returns the
index of the returned pointer (`&m_buf[write_index]`), the final value of
`*sz`, and `some b` when the call stores `b` into `*end_of_buffer_ptr`
(`none` when both out-parameters are left untouched). -/
def RB.allocContig (rb : RB) (requestedSize : Nat) :
    Nat × Nat × Option Bool :=
  let w := rb.writeIndex
  let r := rb.readIndex
  let res :=
    if r ≤ w then
      let base := rb.writableCapacity - w
      if r ≠ 0 then (base + 1, true) else (base, false)
    else (r - w - 1, false)
  if res.1 < requestedSize then (w, res.1, some res.2)
  else (w, requestedSize, none)

/-- Result record of `compound_alloc_contig`; null pointers are `none`. -/
structure AllocResult where
  firstBuf : Option Nat
  firstBufSz : Nat
  secondBuf : Option Nat
  secondBufSz : Nat
  writeAheadOfRead : Bool
  deriving DecidableEq, Repr

/-- `spsc_ringbuffer::compound_alloc_contig()`. -/
def RB.compoundAllocContig (rb : RB) : AllocResult :=
  let w := rb.writeIndex
  let r := rb.readIndex
  let ahead := r ≤ w
  let bytesWritten := rb.getBytesWritten w r
  let freeBytes := rb.writableCapacity - bytesWritten
  let largest :=
    if r ≤ w then
      rb.writableCapacity - w + (if r ≠ 0 then 1 else 0)
    else r - w - 1
  if largest = 0 then ⟨none, 0, none, 0, ahead⟩
  else
    let freeRest := freeBytes - largest
    if freeRest = 0 then ⟨some w, largest, none, 0, ahead⟩
    else ⟨some w, largest, some 0, freeRest, ahead⟩

/-- The logical byte content of the buffer: the `stored` bytes starting
at the read index, in reading order. -/
def RB.contents (rb : RB) : List Nat :=
  (List.range rb.stored).map (fun i => rb.buf ((rb.readIndex + i) % rb.capacity))

/-- A freshly constructed `spsc_ringbuffer(buf, capacity)`. -/
def RB.mk0 (capacity : Nat) (buf : Nat → Nat) : RB :=
  ⟨capacity, buf, 0, 0⟩

/-- Well-formedness: both indices are in `[0, capacity)` (which forces a
non-empty backing buffer).  Every state reachable from a fresh buffer of
positive capacity satisfies this, see `RB.reachable_wf`. -/
def RB.WF (rb : RB) : Prop :=
  rb.readIndex < rb.capacity ∧ rb.writeIndex < rb.capacity

/-- States reachable from a freshly constructed buffer of positive
capacity by producer/consumer operations. -/
inductive RB.Reachable : RB → Prop
  | init (capacity : Nat) (buf : Nat → Nat) (h : 0 < capacity) :
      RB.Reachable (RB.mk0 capacity buf)
  | write (rb : RB) (input : Nat → Nat) (sz : Nat) :
      RB.Reachable rb → RB.Reachable (rb.write input sz).2
  | writeBytes (rb : RB) (input : Nat → Nat) (sz : Nat) :
      RB.Reachable rb → RB.Reachable (rb.writeBytes input sz).2
  | read (rb : RB) (maxRead : Nat) :
      RB.Reachable rb → RB.Reachable (rb.read maxRead).2.2

/-! ### Concrete ring buffer runs used by the claims

`rb8` is a freshly constructed buffer of capacity 8 (writable capacity 7);
the further states replay the scenarios of the spec and of the repository
test `RingBufferTest.CompoundAlloc`. -/

def demoBytes : Nat → Nat := fun i => i + 1

def rb8 : RB := RB.mk0 8 demoBytes

/-- State after writing 5 bytes into `rb8` (scenario (a)). -/
def rbScenA : RB := (rb8.write demoBytes 5).2

/-- State after then reading 5 and writing 4 (scenario (b)). -/
def rbScenB : RB := ((rbScenA.read 5).2.2.write demoBytes 4).2

/-- Separate run: write 5 then read 3 (scenario (d)). -/
def rbScenD : RB := ((rb8.write demoBytes 5).2.read 3).2.2

/-! ### C5: `alloc_contig` -/

/-- The contiguous region size exactly as the claim words it: "capacity −
write_index plus one extra byte if read_index > 0 when write_index ≥
read_index, and read_index − write_index − 1 otherwise". -/
def claimContigAvail (rb : RB) : Nat :=
  if rb.readIndex ≤ rb.writeIndex then
    rb.capacity - rb.writeIndex + (if 0 < rb.readIndex then 1 else 0)
  else rb.readIndex - rb.writeIndex - 1

/-- The contiguous region size the source works with: the claim's formula
with the *writable* capacity (`capacity - 1`) in place of the capacity. -/
def RB.allocContigAvail (rb : RB) : Nat :=
  if rb.readIndex ≤ rb.writeIndex then
    rb.writableCapacity - rb.writeIndex + (if 0 < rb.readIndex then 1 else 0)
  else rb.readIndex - rb.writeIndex - 1

end RTL

namespace SP


/-! ## Smart pointer control block
(`src/librtlcpp/include/rtlcpp/memory.hpp`)

The counters of `control_blk` are modelled as `Nat` together with ghost
fields recording whether the payload is still alive (`m_data != nullptr`
inside the block), how many times the payload destructor has run, and
whether/how often the caller has deallocated the block itself.  The
claims concern single-threaded operation sequences, so the atomic RMW
operations are ordinary reads and writes here and `lock()`'s
compare-exchange loop collapses to its single-threaded effect. -/

structure CB where
  strong : Nat
  weak : Nat
  dataAlive : Bool
  destroyCount : Nat
  blockFreed : Bool
  freeCount : Nat
  deriving DecidableEq, Repr

/-- `control_blk::deinit()`: destroys the payload once (guarded by
`m_data != nullptr`) and clears the pointer. -/
def CB.deinit (c : CB) : CB :=
  if c.dataAlive then
    { c with dataAlive := false, destroyCount := c.destroyCount + 1 }
  else c

/-- `control_blk::inc_strong()`: `fetch_add` on the strong count, and a
weak increment when the previous strong count was 0. -/
def CB.incStrong (c : CB) : CB :=
  let c1 := { c with strong := c.strong + 1 }
  if c.strong = 0 then { c1 with weak := c1.weak + 1 } else c1

/-- `control_blk::inc_weak()`. -/
def CB.incWeak (c : CB) : CB :=
  { c with weak := c.weak + 1 }

/-- `control_blk::dec_weak()`: returns true when the block should now be
deallocated (previous value 1). -/
def CB.decWeak (c : CB) : Bool × CB :=
  (c.weak = 1, { c with weak := c.weak - 1 })

/-- `control_blk::dec_strong()`: on the last strong release it runs
`deinit` and then `dec_weak`, propagating that result. -/
def CB.decStrong (c : CB) : Bool × CB :=
  let c1 := { c with strong := c.strong - 1 }
  if c.strong = 1 then (CB.deinit c1).decWeak
  else (false, c1)

/-- The caller's `m_alloc->deallocate(control_blk)` after a
release returned true (`shared_ptr::reset` / `weak_ptr::reset`). -/
def CB.freeBlock (c : CB) : CB :=
  { c with blockFreed := true, freeCount := c.freeCount + 1 }

/-- `shared_ptr::reset()` on a non-null handle. -/
def CB.sharedReset (c : CB) : CB :=
  let r := c.decStrong
  if r.1 then r.2.freeBlock else r.2

/-- `weak_ptr::reset()` on a non-null handle. -/
def CB.weakReset (c : CB) : CB :=
  let r := c.decWeak
  if r.1 then r.2.freeBlock else r.2

/-- `weak_ptr::lock()`: empty result when expired (strong count 0),
otherwise a fresh `shared_ptr(alloc, cb)` which runs `inc_strong`. -/
def CB.lock (c : CB) : CB :=
  if c.strong = 0 then c else c.incStrong

/-- A control block paired with ghost counts of the live strong and weak
handles referring to it. -/
structure PtrState where
  cb : CB
  strongs : Nat
  weaks : Nat
  deriving DecidableEq, Repr

/-- The state right after a successful `make_shared`: the fresh block is
constructed with counts `(0, 0)` and the returned `shared_ptr` runs
`inc_strong`, giving strong 1 and weak 1 (the shared weak slot). -/
def initState : PtrState :=
  ⟨CB.incStrong ⟨0, 0, true, 0, false, 0⟩, 1, 0⟩

/-- One single-threaded smart pointer operation on the block.  Copy
construction and copy assignment of a `shared_ptr` need a live strong
handle as the source; dropping (destruction, `reset`, assigning null or
move-assigning over) consumes one; `weak_ptr` operations are analogous;
a move transfers a handle without touching the counts. -/
inductive Step : PtrState → PtrState → Prop
  | copyShared (s : PtrState) (h : 1 ≤ s.strongs) :
      Step s ⟨s.cb.incStrong, s.strongs + 1, s.weaks⟩
  | moveShared (s : PtrState) (h : 1 ≤ s.strongs) : Step s s
  | dropShared (s : PtrState) (h : 1 ≤ s.strongs) :
      Step s ⟨s.cb.sharedReset, s.strongs - 1, s.weaks⟩
  | weakFromShared (s : PtrState) (h : 1 ≤ s.strongs) :
      Step s ⟨s.cb.incWeak, s.strongs, s.weaks + 1⟩
  | copyWeak (s : PtrState) (h : 1 ≤ s.weaks) :
      Step s ⟨s.cb.incWeak, s.strongs, s.weaks + 1⟩
  | moveWeak (s : PtrState) (h : 1 ≤ s.weaks) : Step s s
  | dropWeak (s : PtrState) (h : 1 ≤ s.weaks) :
      Step s ⟨s.cb.weakReset, s.strongs, s.weaks - 1⟩
  | lock (s : PtrState) (h : 1 ≤ s.weaks) :
      Step s ⟨s.cb.lock, s.strongs + (if s.cb.strong = 0 then 0 else 1),
        s.weaks⟩

/-- States reachable from a successful `make_shared` by single-threaded
smart pointer operations. -/
inductive Reach : PtrState → Prop
  | init : Reach initState
  | step (s t : PtrState) : Reach s → Step s t → Reach t

/-- The inductive invariant tying the block's counters to the ghost
handle counts. -/
def Inv (s : PtrState) : Prop :=
  s.cb.strong = s.strongs ∧
  s.cb.weak = s.weaks + (if s.strongs = 0 then 0 else 1) ∧
  s.cb.dataAlive = decide (s.strongs ≠ 0) ∧
  s.cb.destroyCount = (if s.strongs = 0 then 1 else 0) ∧
  s.cb.blockFreed = decide (s.strongs = 0 ∧ s.weaks = 0) ∧
  s.cb.freeCount = (if s.strongs = 0 ∧ s.weaks = 0 then 1 else 0)

end SP

namespace HM


/-! ## Amortized-resizing hash map
(`src/librtlcpp/include/rtlcpp/map.hpp`)

The embedding models

* the allocator as an oracle: `failAt i` tells whether the `i`-th
  allocation of the run fails, and a tick counts allocations in program
  order (deallocation never fails and is not counted);
* `rtl::vector` as its element list plus the capacity
  (`src/librtlcpp/include/rtlcpp/vector.hpp`: `reserve` allocates once
  when growing, `push_back` grows `0 → 1 → 2·cap`, `remove_fast` swaps
  the element with the back and pops);
* a map `Entry` as its key plus an optional value — `some v` for a
  heap-allocated value object, `none` for the null value pointer of a
  freshly created or moved-from entry;
* the hash functor `rtl::hash<Key>` as a parameter `hk : K → Nat`
  (its value is reduced mod the bucket count by `get_bucket_index`);
  `fnv1aU32` below is the concrete instance for little-endian
  `uint32_t` keys (`src/librtlcpp/include/rtlcpp/hash.hpp`);
* keys as trivially copyable values, so a moved-from key keeps its
  value (the repository instantiates the map at integer keys). -/

structure AllocO where
  failAt : Nat → Bool
  tick : Nat

/-- One `allocate` call: succeeds unless the oracle fails this tick. -/
def AllocO.alloc (a : AllocO) : Bool × AllocO :=
  (!(a.failAt a.tick), ⟨a.failAt, a.tick + 1⟩)

/-- An oracle on which no allocation ever fails. -/
def AllocO.Ok (a : AllocO) : Prop := ∀ i, a.failAt i = false

/-- `rtl::vector<T>`: elements plus reserved capacity. -/
structure Vec (α : Type) where
  data : List α
  cap : Nat

def Vec.nil {α : Type} : Vec α := ⟨[], 0⟩

/-- `vector::reserve(new_capacity)`: no-op success when not growing,
otherwise one allocation. -/
def Vec.reserve {α : Type} (v : Vec α) (n : Nat) (a : AllocO) :
    Bool × Vec α × AllocO :=
  if n ≤ v.cap then (true, v, a)
  else
    let r := a.alloc
    if r.1 then (true, ⟨v.data, n⟩, r.2) else (false, v, r.2)

/-- `vector::push_back`: grows `0 → 1`, else doubles, when full. -/
def Vec.pushBack {α : Type} (v : Vec α) (x : α) (a : AllocO) :
    Bool × Vec α × AllocO :=
  if v.data.length = v.cap then
    let newCap := if v.cap = 0 then 1 else 2 * v.cap
    let r := v.reserve newCap a
    if r.1 then (true, ⟨r.2.1.data ++ [x], r.2.1.cap⟩, r.2.2)
    else (false, v, r.2.2)
  else (true, ⟨v.data ++ [x], v.cap⟩, a)

/-- `vector::pop_back` (no-op on an empty vector). -/
def Vec.popBack {α : Type} (v : Vec α) : Vec α :=
  ⟨v.data.dropLast, v.cap⟩

/-- `vector::remove_fast(index)`: swap with the back, then pop. -/
def Vec.removeFast {α : Type} (v : Vec α) (i : Nat) : Vec α :=
  if i < v.data.length then
    match v.data.getLast? with
    | some b => ⟨(v.data.set i b).dropLast, v.cap⟩
    | none => v
  else v

/-- `unordered_map::Entry`: in-place key and value pointer. -/
structure Entry (K V : Type) where
  key : K
  val : Option V

/-- `Entry::construct(alloc, val)`: assigns through an existing value
pointer without allocating, else allocates the value object. -/
def entryConstruct {K V : Type} (e : Entry K V) (v : V) (a : AllocO) :
    Bool × Entry K V × AllocO :=
  match e.val with
  | some _ => (true, ⟨e.key, some v⟩, a)
  | none =>
    let r := a.alloc
    if r.1 then (true, ⟨e.key, some v⟩, r.2) else (false, e, r.2)

/-- Index of the first entry with the given key (`Bucket`'s linear
scans compare entries by key only). -/
def bucketFindIdx {K V : Type} [DecidableEq K] (b : Vec (Entry K V))
    (k : K) : Option Nat :=
  b.data.findIdx? (fun e => decide (e.key = k))

/-- `Bucket::get`: the found entry's value pointer, null when absent. -/
def bucketGet {K V : Type} [DecidableEq K] (b : Vec (Entry K V)) (k : K) :
    Option V :=
  match b.data.find? (fun e => decide (e.key = k)) with
  | some e => e.val
  | none => none

/-- `Bucket::bucket_remove`: deconstruct the found entry's value, then
`remove_fast` it.  Does not touch the owning table's entry count. -/
def bucketRemove {K V : Type} [DecidableEq K] (b : Vec (Entry K V))
    (k : K) : Bool × Vec (Entry K V) :=
  match bucketFindIdx b k with
  | none => (false, b)
  | some i =>
      let b1 : Vec (Entry K V) := ⟨b.data.set i ⟨k, none⟩, b.cap⟩
      (true, b1.removeFast i)

/-- Result of `Bucket::bucket_get_or_create_entry`: push failure gives
`ok = false` (the C null entry with created count −1). -/
structure BGocRes (K V : Type) where
  ok : Bool
  created : Bool
  idx : Nat
  b : Vec (Entry K V)
  a : AllocO

def bucketGetOrCreate {K V : Type} [DecidableEq K] (b : Vec (Entry K V))
    (k : K) (a : AllocO) : BGocRes K V :=
  match bucketFindIdx b k with
  | some i => ⟨true, false, i, b, a⟩
  | none =>
    let r := b.pushBack ⟨k, none⟩ a
    if r.1 then ⟨true, true, r.2.1.data.length - 1, r.2.1, r.2.2⟩
    else ⟨false, false, 0, b, r.2.2⟩

/-- `rtl::power_of_two_primes`
(`src/librtlcpp/include/rtlcpp/utility.hpp`). -/
def primeTable : List Nat :=
  [2, 2, 5, 11, 17, 37, 67, 131, 257, 521, 1031, 2053,
   4099, 8209, 16411, 32771, 65537, 131101, 262147, 524309,
   1048583, 2097169, 4194319, 8388617, 16777259, 33554467,
   67108879, 134217757, 268435459, 536870923, 1073741827, 2147483659]

/-- `rtl::get_prime_power_of_2(n)`: 0 for `n ≥ 32`. -/
def getPrimePowerOf2 (n : Nat) : Nat :=
  if 32 ≤ n then 0 else primeTable.getD n 0

/-- `unordered_map::Table`: bucket vector, live entry count, bucket
count and the power-of-two index the bucket count was drawn from. -/
structure Table (K V : Type) where
  buckets : Vec (Vec (Entry K V))
  totalEntries : Nat
  numBuckets : Nat
  power : Nat

/-- The loop of `Table::expand`: push `n` empty buckets, stopping at the
first failure; returns how many were pushed. -/
def pushBuckets {K V : Type} :
    Nat → Vec (Vec (Entry K V)) → Nat → AllocO →
      Nat × Vec (Vec (Entry K V)) × AllocO
  | 0, v, cnt, a => (cnt, v, a)
  | n + 1, v, cnt, a =>
    let r := v.pushBack Vec.nil a
    if r.1 then pushBuckets n r.2.1 (cnt + 1) r.2.2
    else (cnt, v, r.2.2)

/-- `Table::Table(alloc, initial_power_of_2)`: clamp the power into
`[4, 31]`, reserve (result ignored), then `expand`. -/
def Table.new (K V : Type) (power0 : Nat) (a : AllocO) :
    Table K V × AllocO :=
  let p1 := if 32 ≤ power0 then 31 else power0
  let p := if p1 < 4 then 4 else p1
  let target := getPrimePowerOf2 p
  let r := Vec.reserve Vec.nil target a
  let e := pushBuckets target r.2.1 0 r.2.2
  (⟨e.2.1, 0, e.1, p⟩, e.2.2)

/-- `Table::get_bucket_index` (callers guard `m_num_buckets > 0`). -/
def Table.bucketIdx {K V : Type} (t : Table K V) (hk : K → Nat) (k : K) :
    Nat :=
  hk k % t.numBuckets

/-- `Table::get`. -/
def Table.getB {K V : Type} [DecidableEq K] (t : Table K V) (hk : K → Nat)
    (k : K) : Option V :=
  if t.numBuckets = 0 then none
  else bucketGet (t.buckets.data.getD (t.bucketIdx hk k) Vec.nil) k

/-- `Table::table_get_entry`, as the bucket/chain position of the entry. -/
def Table.getEntryIdx? {K V : Type} [DecidableEq K] (t : Table K V)
    (hk : K → Nat) (k : K) : Option (Nat × Nat) :=
  if t.numBuckets = 0 then none
  else
    let bi := t.bucketIdx hk k
    match bucketFindIdx (t.buckets.data.getD bi Vec.nil) k with
    | some ei => some (bi, ei)
    | none => none

/-- The entry at a bucket/chain position. -/
def Table.entryAt? {K V : Type} (t : Table K V) (bi ei : Nat) :
    Option (Entry K V) :=
  (t.buckets.data.getD bi Vec.nil).data[ei]?

/-- Assignment through an entry pointer (`*res.entry = …`). -/
def Table.setEntry {K V : Type} (t : Table K V) (bi ei : Nat)
    (e : Entry K V) : Table K V :=
  let b := t.buckets.data.getD bi Vec.nil
  { t with buckets :=
      ⟨t.buckets.data.set bi ⟨b.data.set ei e, b.cap⟩, t.buckets.cap⟩ }

/-- Result of `Table::table_get_or_create_entry`. -/
structure TGocRes (K V : Type) where
  ok : Bool
  created : Bool
  bIdx : Nat
  eIdx : Nat
  t : Table K V
  a : AllocO

def Table.getOrCreate {K V : Type} [DecidableEq K] (t : Table K V)
    (hk : K → Nat) (k : K) (a : AllocO) : TGocRes K V :=
  if t.numBuckets = 0 then ⟨false, false, 0, 0, t, a⟩
  else
    let bi := t.bucketIdx hk k
    let r := bucketGetOrCreate (t.buckets.data.getD bi Vec.nil) k a
    let t1 : Table K V :=
      { t with
          buckets := ⟨t.buckets.data.set bi r.b, t.buckets.cap⟩,
          totalEntries :=
            if r.created then t.totalEntries + 1 else t.totalEntries }
    ⟨r.ok, r.created, bi, r.idx, t1, r.a⟩

/-- `Table::del`.  The C code decrements `m_total_entries` with an
unsigned `--`; a removal with a zero count cannot occur on states whose
count dominates the stored entries, so the truncated subtraction
coincides. -/
def Table.del {K V : Type} [DecidableEq K] (t : Table K V) (hk : K → Nat)
    (k : K) : Bool × Table K V :=
  if t.numBuckets = 0 then (false, t)
  else
    let bi := t.bucketIdx hk k
    let r := bucketRemove (t.buckets.data.getD bi Vec.nil) k
    if r.1 then
      (true,
        { t with
            buckets := ⟨t.buckets.data.set bi r.2, t.buckets.cap⟩,
            totalEntries := t.totalEntries - 1 })
    else (false, t)

/-- `unordered_map::MapState`. -/
inductive MState
  | error
  | stable
  | transfer
  deriving DecidableEq, Repr

/-- `unordered_map` state.  `main = none` models the null main table of
a failed construction. -/
structure UMap (K V : Type) where
  main : Option (Table K V)
  secondary : Option (Table K V)
  state : MState
  loadFactorPercent : Nat
  cursor : Nat
  locked : Bool

/-- An empty placeholder table; `mainT`/`secT` are only read on states
whose table exists (the source would dereference null otherwise). -/
def UMap.mainT {K V : Type} (m : UMap K V) : Table K V :=
  m.main.getD ⟨Vec.nil, 0, 0, 0⟩

def UMap.secT {K V : Type} (m : UMap K V) : Table K V :=
  m.secondary.getD ⟨Vec.nil, 0, 0, 0⟩

/-- `unordered_map::unordered_map(alloc, max_load_factor)`:
`loadFactorPercent` is `size_t(max_load_factor * 100)`; the table
allocation may fail, latching ERROR (`compute_state`). -/
def UMap.new (K V : Type) (percent : Nat) (a : AllocO) :
    UMap K V × AllocO :=
  let r := a.alloc
  if r.1 then
    let t := Table.new K V 4 r.2
    (⟨some t.1, none, MState.stable, percent, 0, false⟩, t.2)
  else
    (⟨none, none, MState.error, percent, 0, false⟩, r.2)

/-- `unordered_map::should_resize` (callers are in STABLE state). -/
def UMap.shouldResize {K V : Type} (m : UMap K V) : Bool :=
  if m.locked then false
  else
    decide (m.loadFactorPercent * m.mainT.numBuckets / 100 ≤
      m.mainT.totalEntries)

/-- `unordered_map::begin_resize(new_power_of_2)`: allocate and build
the secondary table; tear it down again when the bucket count came out
short of `get_prime_power_of_2(new_power_of_2)` (note the comparison
uses the unclamped argument). -/
def UMap.beginResize {K V : Type} (m : UMap K V) (newPower : Nat)
    (a : AllocO) : Bool × UMap K V × AllocO :=
  let r := a.alloc
  if r.1 then
    let t := Table.new K V newPower r.2
    if getPrimePowerOf2 newPower = t.1.numBuckets then
      (true,
        { m with
            secondary := some t.1,
            state := MState.transfer,
            cursor := 0 }, t.2)
    else (false, m, t.2)
  else (false, m, r.2)

/-- `unordered_map::end_resize`. -/
def UMap.endResize {K V : Type} (m : UMap K V) : UMap K V :=
  { m with
      main := m.secondary,
      secondary := none,
      state := MState.stable,
      cursor := 0 }

/-- `unordered_map::is_transfer_complete`. -/
def UMap.transferDone {K V : Type} (m : UMap K V) : Bool :=
  decide (m.mainT.totalEntries = 0)

/-- Result of draining one main bucket during a partial transfer. -/
structure ChunkRes (K V : Type) where
  ok : Bool
  bucketRev : List (Entry K V)
  sec : Table K V
  budget : Nat
  count : Nat
  a : AllocO

/-- The inner `while (!bucket_empty)` loop of
`perform_partial_transfer`, processing one main bucket.  The bucket's
entries are passed reversed so that the list head is the C `back()`:
check the budget, get-or-create the key in the secondary table, move the
entry in when a new slot was created (discard it otherwise), pop it and
decrement the main entry count. -/
def transferFromBucket {K V : Type} [DecidableEq K] (hk : K → Nat) :
    List (Entry K V) → Table K V → Nat → Nat → AllocO → ChunkRes K V
  | [], sec, budget, count, a => ⟨true, [], sec, budget, count, a⟩
  | e :: rest, sec, budget, count, a =>
    if budget = 0 then ⟨true, e :: rest, sec, budget, count, a⟩
    else
      let r := sec.getOrCreate hk e.key a
      if r.ok then
        let sec2 := if r.created then r.t.setEntry r.bIdx r.eIdx e else r.t
        transferFromBucket hk rest sec2 (budget - 1) (count - 1) r.a
      else ⟨false, e :: rest, r.t, budget, count, r.a⟩

/-- The outer `for (; m_current_bucket_to_transfer < main_buckets; …)`
loop of `perform_partial_transfer`; `fuel` only bounds the cursor walk
(callers pass `numBuckets + 1`, enough to reach the end). -/
def transferAcross {K V : Type} [DecidableEq K] (hk : K → Nat) :
    Nat → Table K V → Nat → Table K V → Nat → AllocO →
      Bool × Table K V × Nat × Table K V × AllocO
  | 0, mn, cursor, sec, _budget, a => (true, mn, cursor, sec, a)
  | fuel + 1, mn, cursor, sec, budget, a =>
    if cursor < mn.numBuckets then
      let b := mn.buckets.data.getD cursor Vec.nil
      let r := transferFromBucket hk b.data.reverse sec budget
        mn.totalEntries a
      let mn2 : Table K V :=
        { mn with
            buckets :=
              ⟨mn.buckets.data.set cursor ⟨r.bucketRev.reverse, b.cap⟩,
                mn.buckets.cap⟩,
            totalEntries := r.count }
      if r.ok then
        if r.bucketRev.isEmpty then
          transferAcross hk fuel mn2 (cursor + 1) r.sec r.budget r.a
        else (true, mn2, cursor, r.sec, r.a)
      else (false, mn2, cursor, r.sec, r.a)
    else (true, mn, cursor, sec, a)

/-- `unordered_map::perform_partial_transfer`: moves up to 512 entries
from `main` to `secondary`, walking buckets from the cursor.  Both
tables exist whenever the source calls this (it asserts so). -/
def UMap.transferChunk {K V : Type} [DecidableEq K] (hk : K → Nat)
    (m : UMap K V) (a : AllocO) : Bool × UMap K V × AllocO :=
  match m.main, m.secondary with
  | some mn, some sec =>
    let r := transferAcross hk (mn.numBuckets + 1) mn m.cursor sec 512 a
    (r.1,
      { m with
          main := some r.2.1,
          cursor := r.2.2.1,
          secondary := some r.2.2.2.1 }, r.2.2.2.2)
  | _, _ => (false, m, a)

/-- `unordered_map::get`. -/
def UMap.get {K V : Type} [DecidableEq K] (hk : K → Nat) (m : UMap K V)
    (k : K) (a : AllocO) : Option V × UMap K V × AllocO :=
  match m.state with
  | MState.error => (none, m, a)
  | MState.stable =>
      let rval := m.mainT.getB hk k
      if m.shouldResize then
        let r := m.beginResize (m.mainT.power + 1) a
        if r.1 then (rval, r.2.1, r.2.2)
        else (none, { r.2.1 with state := MState.error }, r.2.2)
      else (rval, m, a)
  | MState.transfer =>
      let rval :=
        match m.secT.getB hk k with
        | some v => some v
        | none => m.mainT.getB hk k
      let r := m.transferChunk hk a
      if r.1 then
        let m2 := r.2.1
        (rval, if m2.transferDone then m2.endResize else m2, r.2.2)
      else (none, { r.2.1 with state := MState.error }, r.2.2)

/-- `unordered_map::contains` (const: no resize, no transfer). -/
def UMap.contains {K V : Type} [DecidableEq K] (hk : K → Nat)
    (m : UMap K V) (k : K) : Bool :=
  match m.state with
  | MState.error => false
  | MState.stable => (m.mainT.getB hk k).isSome
  | MState.transfer =>
      (m.secT.getB hk k).isSome || (m.mainT.getB hk k).isSome

/-- `unordered_map::put`. -/
def UMap.put {K V : Type} [DecidableEq K] (hk : K → Nat) (m : UMap K V)
    (k : K) (v : V) (a : AllocO) : Bool × UMap K V × AllocO :=
  match m.state with
  | MState.error => (false, m, a)
  | MState.stable =>
      let res := m.mainT.getOrCreate hk k a
      -- the do { … } while(false) block: (rval, new main, oracle)
      let step : Bool × Table K V × AllocO :=
        if res.ok then
          match res.t.entryAt? res.bIdx res.eIdx with
          | some e =>
            let c := entryConstruct e v res.a
            if c.1 then
              (true, res.t.setEntry res.bIdx res.eIdx c.2.1, c.2.2)
            else
              if res.created then
                let br := bucketRemove
                  (res.t.buckets.data.getD res.bIdx Vec.nil) k
                (false,
                  { res.t with buckets :=
                      ⟨res.t.buckets.data.set res.bIdx br.2,
                        res.t.buckets.cap⟩ }, c.2.2)
              else (false, res.t, c.2.2)
          | none => (false, res.t, res.a)
        else (false, res.t, res.a)
      let m1 := { m with main := some step.2.1 }
      if m1.shouldResize then
        let r := m1.beginResize (m1.mainT.power + 1) step.2.2
        if r.1 then (step.1, r.2.1, r.2.2)
        else (false, { r.2.1 with state := MState.error }, r.2.2)
      else (step.1, m1, step.2.2)
  | MState.transfer =>
      let res := m.secT.getOrCreate hk k a
      -- (rval, new secondary, new main, oracle)
      let step : Bool × Table K V × Table K V × AllocO :=
        if res.ok then
          let moved : Table K V × Table K V :=
            if res.created then
              match m.mainT.getEntryIdx? hk k with
              | some mpos =>
                  match m.mainT.entryAt? mpos.1 mpos.2 with
                  | some me =>
                      (res.t.setEntry res.bIdx res.eIdx ⟨me.key, me.val⟩,
                        m.mainT.setEntry mpos.1 mpos.2 ⟨me.key, none⟩)
                  | none => (res.t, m.mainT)
              | none => (res.t, m.mainT)
            else (res.t, m.mainT)
          match moved.1.entryAt? res.bIdx res.eIdx with
          | some e =>
            let c := entryConstruct e v res.a
            if c.1 then
              (true, moved.1.setEntry res.bIdx res.eIdx c.2.1, moved.2,
                c.2.2)
            else
              if res.created then
                let t1 := moved.1.setEntry res.bIdx res.eIdx ⟨e.key, none⟩
                let br := bucketRemove
                  (t1.buckets.data.getD res.bIdx Vec.nil) k
                (false,
                  { t1 with buckets :=
                      ⟨t1.buckets.data.set res.bIdx br.2,
                        t1.buckets.cap⟩ }, moved.2, c.2.2)
              else (false, moved.1, moved.2, c.2.2)
          | none => (false, moved.1, moved.2, res.a)
        else (false, res.t, m.mainT, res.a)
      let m1 := { m with
          secondary := some step.2.1,
          main := some step.2.2.1 }
      let r := m1.transferChunk hk step.2.2.2
      if r.1 then
        let m2 := r.2.1
        (step.1, if m2.transferDone then m2.endResize else m2, r.2.2)
      else (false, { r.2.1 with state := MState.error }, r.2.2)

/-- `unordered_map::del`. -/
def UMap.del {K V : Type} [DecidableEq K] (hk : K → Nat) (m : UMap K V)
    (k : K) (a : AllocO) : Bool × UMap K V × AllocO :=
  match m.state with
  | MState.error => (false, m, a)
  | MState.stable =>
      let r := m.mainT.del hk k
      let m1 := { m with main := some r.2 }
      if m1.shouldResize then
        let b := m1.beginResize (m1.mainT.power + 1) a
        if b.1 then (r.1, b.2.1, b.2.2)
        else (false, { b.2.1 with state := MState.error }, b.2.2)
      else (r.1, m1, a)
  | MState.transfer =>
      let r1 := m.mainT.del hk k
      -- deleted-in-main wins; only then try the secondary table
      let res : Bool × Table K V × Table K V :=
        if r1.1 then (true, r1.2, m.secT)
        else
          let r2 := m.secT.del hk k
          (r2.1, r1.2, r2.2)
      let m1 := { m with main := some res.2.1, secondary := some res.2.2 }
      let t := m1.transferChunk hk a
      if t.1 then
        let m2 := t.2.1
        (res.1, if m2.transferDone then m2.endResize else m2, t.2.2)
      else (false, { t.2.1 with state := MState.error }, t.2.2)

/-- The `for (i = 0; i < 32; i++)` search in `reserve`: the first power
whose prime is at least the requested bucket count. -/
def findPrimeIdx (n : Nat) : Option Nat :=
  (List.range 32).find? (fun i => decide (n ≤ getPrimePowerOf2 i))

/-- The `while (!transfer_complete) { perform_partial_transfer(); }`
loop followed by `end_resize()`, as used by `reserve` (and `finalize`).
`fuel` bounds the iterations of the C loop; callers pass
`totalEntries + 2`, which dominates the loop length whenever the entry
count is exact (each chunk moves `min(512, remaining)` entries).  On a
map whose count exceeds its stored entries the C loop never exits; the
model returns `false` at fuel 0 in that case. -/
def UMap.finishXfer {K V : Type} [DecidableEq K] (hk : K → Nat) :
    Nat → UMap K V → AllocO → Bool × UMap K V × AllocO
  | 0, m, a => (false, m, a)
  | fuel + 1, m, a =>
    if m.transferDone then (true, m.endResize, a)
    else
      let r := m.transferChunk hk a
      if r.1 then UMap.finishXfer hk fuel r.2.1 r.2.2
      else (false, r.2.1, r.2.2)

/-- `unordered_map::reserve(number_of_buckets)`. -/
def UMap.reserve {K V : Type} [DecidableEq K] (hk : K → Nat)
    (m : UMap K V) (n : Nat) (a : AllocO) : Bool × UMap K V × AllocO :=
  if m.state = MState.error then (false, m, a)
  else if n = 0 then (false, m, a)
  else
    match findPrimeIdx n with
    | none => (false, m, a)
    | some i =>
      let s1 : Bool × UMap K V × AllocO :=
        if m.state = MState.transfer then
          UMap.finishXfer hk (m.mainT.totalEntries + 2) m a
        else (true, m, a)
      if s1.1 then
        let m1 := s1.2.1
        if i ≤ m1.mainT.power then (true, m1, s1.2.2)
        else
          let b := m1.beginResize i s1.2.2
          if b.1 then
            UMap.finishXfer hk (b.2.1.mainT.totalEntries + 2) b.2.1 b.2.2
          else (false, { b.2.1 with state := MState.error }, b.2.2)
      else (false, s1.2.1, s1.2.2)

/-- `unordered_map::get_num_buckets`. -/
def UMap.numBuckets {K V : Type} (m : UMap K V) : Nat :=
  match m.state with
  | MState.error => 0
  | MState.stable => m.mainT.numBuckets
  | MState.transfer => m.secT.numBuckets

/-- The observable key-to-value mapping: the lookup chain `contains`
and `get` use, without their side effects. -/
def UMap.lookup {K V : Type} [DecidableEq K] (hk : K → Nat)
    (m : UMap K V) (k : K) : Option V :=
  match m.state with
  | MState.error => none
  | MState.stable => m.mainT.getB hk k
  | MState.transfer =>
      match m.secT.getB hk k with
      | some v => some v
      | none => m.mainT.getB hk k

/-- One step of 32-bit FNV-1a (`rtl::fnv1a`). -/
def fnv1aStep (h b : Nat) : Nat :=
  ((h ^^^ b) * 16777619) % 4294967296

/-- `rtl::hash<uint32_t>`: FNV-1a over the four bytes of the key's
object representation, little-endian (the order the repository's
x86 targets store them in). -/
def fnv1aU32 (n : Nat) : Nat :=
  fnv1aStep (fnv1aStep (fnv1aStep (fnv1aStep 2166136261
    (n % 256)) (n / 256 % 256)) (n / 65536 % 256)) (n / 16777216 % 256)

/-! ### Derived notions used by the map theorems -/

/-- The bucket at index `i` (empty when out of range; the source never
indexes out of range on the states considered). -/
def bucketAt {K V : Type} (t : Table K V) (i : Nat) : Vec (Entry K V) :=
  t.buckets.data.getD i Vec.nil

/-- The keys of a chain. -/
def keysOf {K V : Type} (l : List (Entry K V)) : List K :=
  l.map (fun e => e.key)

/-- Total number of entries actually stored in the buckets. -/
def bucketSum {K V : Type} (t : Table K V) : Nat :=
  (t.buckets.data.map (fun b => b.data.length)).sum

/-- Entries stored from bucket `i` on (the region a transfer cursor at
`i` still has to walk). -/
def bucketSumFrom {K V : Type} (t : Table K V) (i : Nat) : Nat :=
  ((t.buckets.data.drop i).map (fun b => b.data.length)).sum

/-- `k` occurs as a key in the bucket the table would search for it. -/
def hasKeyT {K V : Type} [DecidableEq K] (hk : K → Nat) (t : Table K V)
    (k : K) : Prop :=
  ∃ e ∈ (bucketAt t (t.bucketIdx hk k)).data, e.key = k

/-- The TRANSFER-state lookup chain: secondary first, then main. -/
def chain {K V : Type} [DecidableEq K] (hk : K → Nat)
    (mn sec : Table K V) (q : K) : Option V :=
  match sec.getB hk q with
  | some v => some v
  | none => mn.getB hk q

/-- `mn` with bucket `cur`'s entries replaced (capacity kept). -/
def tableWith {K V : Type} (mn : Table K V) (cur : Nat)
    (bd : List (Entry K V)) (count : Nat) : Table K V :=
  { mn with
      buckets :=
        ⟨mn.buckets.data.set cur ⟨bd, (bucketAt mn cur).cap⟩,
          mn.buckets.cap⟩,
      totalEntries := count }

/-- Structural well-formedness of a table: the bucket vector has
exactly `numBuckets` buckets, there is at least one, every entry sits in
the bucket its key hashes to, and no bucket holds a key twice. -/
structure TWF {K V : Type} [DecidableEq K] (hk : K → Nat)
    (t : Table K V) : Prop where
  blen : t.buckets.data.length = t.numBuckets
  nbpos : 0 < t.numBuckets
  placed : ∀ bi, bi < t.numBuckets →
    ∀ e ∈ (bucketAt t bi).data, hk e.key % t.numBuckets = bi
  nodup : ∀ bi, bi < t.numBuckets → (keysOf (bucketAt t bi).data).Nodup

/-- Every entry of the table owns a value object. -/
def ValsSomeT {K V : Type} (t : Table K V) : Prop :=
  ∀ bi, ∀ e ∈ (bucketAt t bi).data, e.val.isSome = true

/-- Every value-less (moved-from) entry of `mn` has its key present in
`sec` — the shape `put` leaves behind during TRANSFER. -/
def StaleInvT {K V : Type} [DecidableEq K] (hk : K → Nat)
    (mn sec : Table K V) : Prop :=
  ∀ bi, ∀ e ∈ (bucketAt mn bi).data, e.val = none → hasKeyT hk sec e.key

/-- The entry count never undercounts the stored entries (rolled-back
`put`s make it overcount, see `put`'s failure path). -/
def CountLE {K V : Type} (t : Table K V) : Prop :=
  bucketSum t ≤ t.totalEntries

/-- Exact entry bookkeeping (holds when no allocation has ever failed). -/
def CountEQ {K V : Type} (t : Table K V) : Prop :=
  bucketSum t = t.totalEntries

/-- Buckets before the transfer cursor have been fully drained. -/
def FrontEmpty {K V : Type} (t : Table K V) (cursor : Nat) : Prop :=
  ∀ bi, bi < cursor → (bucketAt t bi).data = []

/-- Well-formedness of a map state, as used by the `put` and `reserve`
theorems.  ERROR states carry no structure; a STABLE map is its main
table; a TRANSFER map is both tables plus the cross-table invariants. -/
def MapWF {K V : Type} [DecidableEq K] (hk : K → Nat) (m : UMap K V) :
    Prop :=
  match m.state with
  | MState.error => True
  | MState.stable =>
      ∃ t, m.main = some t ∧ m.secondary = none ∧ TWF hk t ∧
        ValsSomeT t ∧ CountLE t
  | MState.transfer =>
      ∃ tm ts, m.main = some tm ∧ m.secondary = some ts ∧ TWF hk tm ∧
        TWF hk ts ∧ CountLE tm ∧ ValsSomeT ts ∧ StaleInvT hk tm ts

/-! ### Concrete map runs used by the claims -/

/-- An allocator on which every allocation succeeds. -/
def okO : AllocO := ⟨fun _ => false, 0⟩

/-- C1 run, part 1: a map with `max_load_factor = 31.0` (percent 3100)
filled with keys `0 … 526` (values `key + 1000`); the 527-th put crosses
the `⌊31.0 · 17⌋ = 527` threshold, so the map enters TRANSFER with all
527 entries still in `main` — more than one 512-entry transfer budget.
No allocation ever fails, so the map never enters ERROR. -/
def c1Base : UMap Nat Nat × AllocO :=
  (List.range 527).foldl
    (fun p k =>
      let r := UMap.put fnv1aU32 p.1 k (k + 1000) p.2
      (r.2.1, r.2.2))
    (UMap.new Nat Nat 3100 okO)

/-- C1 run, part 2: overwrite key 5 during TRANSFER.  `put` creates the
slot in `secondary` and moves the value out of `main`'s entry for key 5,
leaving a value-less entry for key 5 in `main`; the put's own partial
transfer (512 entries) does not reach that entry. -/
def c1AfterPut : Bool × UMap Nat Nat × AllocO :=
  UMap.put fnv1aU32 c1Base.1 5 9999 c1Base.2

/-- C1 run, part 3: `del(5)` finds the value-less entry in `main`,
removes it and returns true without touching `secondary`. -/
def c1AfterDel : Bool × UMap Nat Nat × AllocO :=
  UMap.del fnv1aU32 c1AfterPut.2.1 5 c1AfterPut.2.2

/-- C1 run, part 4: the subsequent `get(5)`. -/
def c1AfterGet : Option Nat × UMap Nat Nat × AllocO :=
  UMap.get fnv1aU32 c1AfterDel.2.1 5 c1AfterDel.2.2

/-! ### C6: `reserve` -/

/-- A fresh map with the default load factor 5.0 (percent 500) and an
always-succeeding allocator. -/
def c6Map : UMap Nat Nat × AllocO := UMap.new Nat Nat 500 okO

def c6R24 : Bool × UMap Nat Nat × AllocO :=
  UMap.reserve fnv1aU32 c6Map.1 24 c6Map.2

def c6R12 : Bool × UMap Nat Nat × AllocO :=
  UMap.reserve fnv1aU32 c6R24.2.1 12 c6R24.2.2

/-- Allocator for the C6 counterexample: allocation number 6 — the
first allocation of the `reserve` call below, the bucket-vector growth
inside the partial transfer — fails; everything before succeeds. -/
def c6cxO : AllocO := ⟨fun t => decide (t = 6), 0⟩

/-- A map with `max_load_factor = 0.01` (percent 1, so the resize
threshold is 0): the very first successful `put` leaves it in TRANSFER
with one entry still in `main`. -/
def c6cxXfer : Bool × UMap Nat Nat × AllocO :=
  UMap.put fnv1aU32 (UMap.new Nat Nat 1 c6cxO).1 0 1000
    (UMap.new Nat Nat 1 c6cxO).2

def c6cxRes : Bool × UMap Nat Nat × AllocO :=
  UMap.reserve fnv1aU32 c6cxXfer.2.1 100 c6cxXfer.2.2

/-- A map whose construction failed at the very first allocation: it is
born in (and therefore inhabits) the ERROR state. -/
def errMap : UMap Nat Nat × AllocO :=
  UMap.new Nat Nat 500 ⟨fun t => decide (t = 0), 0⟩

/-! ### C10: failed `put` and the observable mapping -/

/-- Allocator for the C10 counterexample: allocations 7 (the value
object of the failing put) and 8 (the bucket growth inside the same
put's partial transfer) fail. -/
def c10cxO : AllocO := ⟨fun t => decide (t = 7 ∨ t = 8), 0⟩

/-- Same percent-1 map as `c6cxXfer`, built over the C10 oracle (the
first failing tick is 7, so construction and the first put behave
identically): TRANSFER, holding `0 ↦ 1000`. -/
def c10cxBase : Bool × UMap Nat Nat × AllocO :=
  UMap.put fnv1aU32 (UMap.new Nat Nat 1 c10cxO).1 0 1000
    (UMap.new Nat Nat 1 c10cxO).2

def c10cxPut : Bool × UMap Nat Nat × AllocO :=
  UMap.put fnv1aU32 c10cxBase.2.1 1 2000 c10cxBase.2.2

/-- The invariants `reserve` needs: a non-ERROR map whose tables are
well-formed with exact entry bookkeeping, a drained transfer front, and
a bucket count drawn from the prime table at its power (as every map
the source builds without a failed allocation satisfies). -/
def ReserveWF {K V : Type} [DecidableEq K] (hk : K → Nat)
    (m : UMap K V) : Prop :=
  match m.state with
  | MState.error => False
  | MState.stable =>
      ∃ t, m.main = some t ∧ TWF hk t ∧ ValsSomeT t ∧ CountEQ t ∧
        4 ≤ t.power ∧ t.power ≤ 31 ∧
        t.numBuckets = getPrimePowerOf2 t.power
  | MState.transfer =>
      ∃ tm ts, m.main = some tm ∧ m.secondary = some ts ∧
        TWF hk tm ∧ TWF hk ts ∧ ValsSomeT ts ∧ StaleInvT hk tm ts ∧
        CountEQ tm ∧ CountEQ ts ∧ FrontEmpty tm m.cursor ∧
        4 ≤ ts.power ∧ ts.power ≤ 31 ∧
        ts.numBuckets = getPrimePowerOf2 ts.power

/-! ### Concrete instances for the general map theorems -/

def c6wO : AllocO := ⟨fun _ => false, 0⟩

def c6wNew : UMap Nat Nat × AllocO := UMap.new Nat Nat 3100 c6wO

def c6wBase : UMap Nat Nat := c6wNew.1

def c6wA : AllocO := c6wNew.2

def c6wT : Table Nat Nat := c6wBase.mainT

def c10wO : AllocO := ⟨fun t => decide (t = 3), 0⟩

def c10wNew : UMap Nat Nat × AllocO := UMap.new Nat Nat 500 c10wO

def c10wBase : UMap Nat Nat := c10wNew.1

def c10wA : AllocO := c10wNew.2

def c10wT : Table Nat Nat := c10wBase.mainT

end HM

namespace RTL

theorem RB.reachable_wf (rb : RB) (h : RB.Reachable rb) : rb.WF := by
  induction h with
  | init capacity buf h => exact ⟨h, h⟩
  | write rb input sz _ ih =>
      unfold RB.write
      rcases ih with ⟨h1, h2⟩
      dsimp only
      split
      · exact ⟨h1, h2⟩
      · split
        · exact ⟨h1, h2⟩
        · split
          · exact ⟨h1, h2⟩
          · exact ⟨h1, Nat.mod_lt _ (Nat.lt_of_le_of_lt (Nat.zero_le _) h2)⟩
  | writeBytes rb input sz _ ih =>
      unfold RB.writeBytes
      rcases ih with ⟨h1, h2⟩
      dsimp only
      split
      · exact ⟨h1, h2⟩
      · exact ⟨h1, Nat.mod_lt _ (Nat.lt_of_le_of_lt (Nat.zero_le _) h2)⟩
  | read rb maxRead _ ih =>
      unfold RB.read
      rcases ih with ⟨h1, h2⟩
      dsimp only
      split
      · exact ⟨h1, h2⟩
      · exact ⟨Nat.mod_lt _ (Nat.lt_of_le_of_lt (Nat.zero_le _) h1), h2⟩

/-! ### Helper lemmas for the ring buffer -/

theorem RB.writableCapacity_eq (rb : RB) (h : 0 < rb.capacity) :
    rb.writableCapacity = rb.capacity - 1 := by
  unfold RB.writableCapacity
  simp [h]

theorem mod_two_blocks {x c : Nat} (_hc : 0 < c) (hx : x < 2 * c) :
    x % c = if x < c then x else x - c := by
  split
  · exact Nat.mod_eq_of_lt (by assumption)
  · rw [Nat.mod_eq_sub_mod (by omega)]
    exact Nat.mod_eq_of_lt (by omega)

theorem range_map_append {α : Type} (m n : Nat) (f g : Nat → α) :
    (List.range m).map f ++ (List.range n).map g =
      (List.range (m + n)).map (fun i => if i < m then f i else g (i - m)) := by
  rw [List.range_add, List.map_append, List.map_map]
  congr 1
  · apply List.map_congr_left
    intro a ha
    rw [List.mem_range] at ha
    simp [ha]
  · apply List.map_congr_left
    intro a _
    simp

theorem RB.privWrite_get (rb : RB) (input : Nat → Nat) (sz i : Nat)
    (hr : rb.readIndex < rb.capacity) (hw : rb.writeIndex < rb.capacity)
    (hsz : 0 < sz) (hfit : sz ≤ rb.writableCapacity - rb.stored)
    (hi : i < rb.stored + sz) :
    rb.privWrite input sz rb.writeIndex rb.readIndex
        ((rb.readIndex + i) % rb.capacity) =
      if i < rb.stored then rb.buf ((rb.readIndex + i) % rb.capacity)
      else input (i - rb.stored) := by
  have hcap : 0 < rb.capacity := Nat.lt_of_le_of_lt (Nat.zero_le _) hr
  have hwc : rb.writableCapacity = rb.capacity - 1 :=
    rb.writableCapacity_eq hcap
  set cap := rb.capacity with hcapd
  set w := rb.writeIndex with hwd
  set r := rb.readIndex with hrd
  set wc := rb.writableCapacity with hwcd
  have hst : rb.stored = if r ≤ w then w - r else wc - r + 1 + w := by
    unfold RB.stored RB.getBytesWritten
    rfl
  rw [hst] at hfit hi ⊢
  unfold RB.privWrite
  dsimp only
  by_cases hrw : r ≤ w
  · rw [if_pos hrw] at hfit hi ⊢
    rw [if_pos hrw]
    by_cases hilt : i < w - r
    · -- untouched logical region
      rw [if_pos hilt]
      have hp : (r + i) % cap = r + i := Nat.mod_eq_of_lt (by omega)
      rw [hp]
      unfold memcpyAt
      have h2 : ¬ (0 ≤ r + i ∧
          r + i < 0 + (if sz < wc - w + 1 then 0 else sz - (wc - w + 1))) := by
        split <;> omega
      rw [if_neg h2]
      have h1 : ¬ (w ≤ r + i ∧ r + i < w + (wc - w + 1)) := by omega
      rw [if_neg h1]
    · -- freshly written region
      rw [if_neg hilt]
      have hb : r + i = w + (i - (w - r)) := by omega
      rw [hb, mod_two_blocks hcap (by omega)]
      by_cases hlt : w + (i - (w - r)) < cap
      · rw [if_pos hlt]
        unfold memcpyAt
        have h2 : ¬ (0 ≤ w + (i - (w - r)) ∧ w + (i - (w - r)) <
            0 + (if sz < wc - w + 1 then 0 else sz - (wc - w + 1))) := by
          split <;> omega
        rw [if_neg h2]
        rw [if_pos (show w ≤ w + (i - (w - r)) ∧
            w + (i - (w - r)) < w + (wc - w + 1) by omega)]
        congr 1
        omega
      · rw [if_neg hlt]
        unfold memcpyAt
        have hc1 : ¬ (sz < wc - w + 1) := by omega
        rw [if_neg hc1]
        rw [if_pos (show 0 ≤ w + (i - (w - r)) - cap ∧
            w + (i - (w - r)) - cap < 0 + (sz - (wc - w + 1)) by omega)]
        show input (wc - w + 1 + (w + (i - (w - r)) - cap - 0)) =
          input (i - (w - r))
        congr 1
        omega
  · rw [if_neg hrw] at hfit hi ⊢
    rw [if_neg hrw]
    have hwr : w < r := by omega
    have hfit2 : w + sz < r := by omega
    unfold memcpyAt
    by_cases hilt : i < wc - r + 1 + w
    · rw [if_pos hilt]
      rw [mod_two_blocks hcap (show r + i < 2 * cap by omega)]
      by_cases hlt : r + i < cap
      · rw [if_pos hlt]
        rw [if_neg (show ¬ (w ≤ r + i ∧ r + i < w + sz) by omega)]
      · rw [if_neg hlt]
        rw [if_neg (show ¬ (w ≤ r + i - cap ∧ r + i - cap < w + sz) by omega)]
    · rw [if_neg hilt]
      have hmod : (r + i) % cap = w + (i - (wc - r + 1 + w)) := by
        have hrij : r + i = cap + (w + (i - (wc - r + 1 + w))) := by omega
        rw [hrij, Nat.add_mod_left]
        exact Nat.mod_eq_of_lt (by omega)
      rw [hmod]
      rw [if_pos (show w ≤ w + (i - (wc - r + 1 + w)) ∧
          w + (i - (wc - r + 1 + w)) < w + sz by omega)]
      congr 1
      omega

/-- After a fitting write of `sz` bytes the stored count grows by `sz`. -/
theorem RB.stored_after_fit (rb : RB) (sz : Nat)
    (hr : rb.readIndex < rb.capacity) (hw : rb.writeIndex < rb.capacity)
    (hfit : sz ≤ rb.writableCapacity - rb.stored) :
    rb.getBytesWritten ((rb.writeIndex + sz) % rb.capacity) rb.readIndex =
      rb.stored + sz := by
  have hcap : 0 < rb.capacity := Nat.lt_of_le_of_lt (Nat.zero_le _) hr
  have hwc : rb.writableCapacity = rb.capacity - 1 :=
    rb.writableCapacity_eq hcap
  unfold RB.stored RB.getBytesWritten at hfit ⊢
  have h2 : rb.writeIndex + sz < 2 * rb.capacity := by
    split at hfit <;> omega
  rw [mod_two_blocks hcap h2]
  split at hfit <;> (repeat' split) <;> omega

/-- C3 counterexample: continuing from scenario (b) (`write_index = 1`,
`read_index = 5`, 4 bytes stored, 3 free), a write of another 7 bytes is
rejected (`7` exceeds both the free space and, per `write`, the fit
check), so `compound_alloc_contig` still reports `first_buf_sz = 3` —
not the all-zero sizes the claim states for this point of the sequence. -/
theorem compound_alloc_scenario_c_cx :
    (rbScenB.write demoBytes 7).1 = false ∧
    ¬ ((rbScenB.write demoBytes 7).2.compoundAllocContig.firstBufSz = 0 ∧
       (rbScenB.write demoBytes 7).2.compoundAllocContig.secondBufSz = 0) := by
  decide

/-- C3 (amended): scenarios (a), (b) and (d) exactly as claimed; the
7-byte write continuing from (b) returns false and leaves the compound
result unchanged, while a *fresh* capacity-8 buffer filled by a 7-byte
write (the repository test's separate "Full scenario") reports both
sizes 0. -/
theorem compound_alloc_scenarios :
    rbScenA.compoundAllocContig = ⟨some 5, 2, none, 0, true⟩ ∧
    rbScenB.compoundAllocContig = ⟨some 1, 3, none, 0, false⟩ ∧
    (rbScenB.write demoBytes 7).1 = false ∧
    (rbScenB.write demoBytes 7).2.compoundAllocContig =
      ⟨some 1, 3, none, 0, false⟩ ∧
    ((RB.mk0 8 demoBytes).write demoBytes 7).2.compoundAllocContig =
      ⟨none, 0, none, 0, true⟩ ∧
    rbScenD.compoundAllocContig = ⟨some 5, 3, some 0, 2, true⟩ := by
  decide

/-- C2 (code bug): on the reachable capacity-8 state holding 5 bytes
(2 free), `write_bytes(input, 5)` returns `2 = min(5, 7, 2)` as claimed,
but the source then advances `m_write_index` by the unclamped `sz` (5),
so the stored-byte count drops from 5 to 2 instead of growing by the
returned count to 7. -/
theorem write_bytes_index_bug :
    RB.Reachable rbScenA ∧
    rbScenA.stored = 5 ∧
    (rbScenA.writeBytes demoBytes 5).1 = 2 ∧
    (rbScenA.writeBytes demoBytes 5).2.stored = 2 ∧
    (rbScenA.writeBytes demoBytes 5).2.stored ≠
      rbScenA.stored + (rbScenA.writeBytes demoBytes 5).1 :=
  ⟨RB.Reachable.write _ demoBytes 5
      (RB.Reachable.init 8 demoBytes (by decide)),
    by decide, by decide, by decide, by decide⟩

/-- C9 (code bug): on the freshly constructed (hence reachable)
capacity-8 buffer, `write(input, 1)` makes `priv_write` copy
`until_end_of_buffer = capacity - write_index = 8` bytes out of `input`,
reading 7 bytes past the single valid input byte. -/
theorem write_input_overread :
    RB.Reachable rb8 ∧
    rb8.writeInputReadCount 1 = 8 ∧
    1 < rb8.writeInputReadCount 1 :=
  ⟨RB.Reachable.init 8 demoBytes (by decide), by decide, by decide⟩

/-! ### C4: `write` is all-or-nothing -/

/-- C4: `write(input, sz)` rejects (returning false and leaving the
state untouched) when `sz` exceeds the writable capacity or the current
free space; accepts a zero-length write without change; and otherwise
enqueues exactly the `sz` input bytes: the stored content becomes the old
content with the `sz` bytes appended, the read index is unchanged and
the write index advances by `sz` modulo the capacity. -/
theorem write_all_or_nothing (rb : RB) (input : Nat → Nat) (sz : Nat)
    (hr : rb.readIndex < rb.capacity) (hw : rb.writeIndex < rb.capacity) :
    (rb.writableCapacity < sz → rb.write input sz = (false, rb)) ∧
    (sz = 0 → rb.write input sz = (true, rb)) ∧
    (sz ≤ rb.writableCapacity → rb.writableCapacity - rb.stored < sz →
        rb.write input sz = (false, rb)) ∧
    (0 < sz → sz ≤ rb.writableCapacity - rb.stored →
        (rb.write input sz).1 = true ∧
        (rb.write input sz).2.readIndex = rb.readIndex ∧
        (rb.write input sz).2.writeIndex =
          (rb.writeIndex + sz) % rb.capacity ∧
        (rb.write input sz).2.contents =
          rb.contents ++ (List.range sz).map input) := by
  refine ⟨?_, ?_, ?_, ?_⟩
  · intro h
    unfold RB.write
    rw [if_pos h]
  · intro h
    subst h
    unfold RB.write
    rw [if_neg (by omega), if_pos rfl]
  · intro h1 h2
    unfold RB.stored at h2
    have hsz : ¬ sz = 0 := by omega
    unfold RB.write
    rw [if_neg (by omega), if_neg hsz]
    dsimp only
    rw [if_pos h2]
  · intro h0 hfit
    have hfit' := hfit
    unfold RB.stored at hfit'
    have hno : ¬ rb.writableCapacity <  sz := by omega
    have hsz : ¬ sz = 0 := by omega
    have hspace : ¬ rb.writableCapacity -
        rb.getBytesWritten rb.writeIndex rb.readIndex < sz := by omega
    have hamt : min sz (rb.writableCapacity -
        rb.getBytesWritten rb.writeIndex rb.readIndex) = sz := by omega
    unfold RB.write
    rw [if_neg hno, if_neg hsz]
    dsimp only
    rw [if_neg hspace, hamt]
    refine ⟨rfl, rfl, rfl, ?_⟩
    unfold RB.contents RB.stored
    dsimp only
    rw [show (⟨rb.capacity, rb.privWrite input sz rb.writeIndex rb.readIndex,
          rb.readIndex, (rb.writeIndex + sz) % rb.capacity⟩ :
            RB).getBytesWritten ((rb.writeIndex + sz) % rb.capacity)
            rb.readIndex =
        rb.getBytesWritten ((rb.writeIndex + sz) % rb.capacity)
          rb.readIndex from rfl]
    rw [RB.stored_after_fit rb sz hr hw hfit]
    rw [range_map_append]
    apply List.map_congr_left
    intro a ha
    rw [List.mem_range] at ha
    exact RB.privWrite_get rb input sz a hr hw h0 hfit ha

/-- Witness for `write_all_or_nothing`: the fitting branch evaluated on a
concrete wrapped state (capacity 8, `read_index = 5`, `write_index = 1`). -/
theorem write_all_or_nothing_witness :
    ((⟨8, demoBytes, 5, 1⟩ : RB).write demoBytes 3).1 = true ∧
    ((⟨8, demoBytes, 5, 1⟩ : RB).write demoBytes 3).2.readIndex =
      (⟨8, demoBytes, 5, 1⟩ : RB).readIndex ∧
    ((⟨8, demoBytes, 5, 1⟩ : RB).write demoBytes 3).2.writeIndex =
      ((⟨8, demoBytes, 5, 1⟩ : RB).writeIndex + 3) %
        (⟨8, demoBytes, 5, 1⟩ : RB).capacity ∧
    ((⟨8, demoBytes, 5, 1⟩ : RB).write demoBytes 3).2.contents =
      (⟨8, demoBytes, 5, 1⟩ : RB).contents ++
        (List.range 3).map demoBytes :=
  (write_all_or_nothing ⟨8, demoBytes, 5, 1⟩ demoBytes 3
      (by decide) (by decide)).2.2.2 (by decide) (by decide)

/-- C5 counterexample: on the freshly constructed (reachable) capacity-8
buffer the claim's region formula gives `capacity - write_index = 8`, so
for a request of 8 the claim predicts an untouched `*sz`; the source
computes the region as `writable_capacity - write_index = 7` and
overwrites `*sz` with 7 (and stores into `*end_of_buffer`). -/
theorem alloc_contig_capacity_cx :
    RB.Reachable rb8 ∧
    claimContigAvail rb8 = 8 ∧
    rb8.allocContig 8 = (0, 7, some false) ∧
    (rb8.allocContig 8).2.1 ≠ claimContigAvail rb8 ∧
    ¬ (8 ≤ claimContigAvail rb8 → (rb8.allocContig 8).2.2 = none) :=
  ⟨RB.Reachable.init 8 demoBytes (by decide), by decide, by decide,
    by decide, by decide⟩

/-- C5 (amended): for every buffer state, `alloc_contig` returns a
pointer at the current write position; the available contiguous region is
`writable_capacity - write_index`, plus one extra byte if
`read_index > 0`, when `write_index ≥ read_index`, and
`read_index - write_index - 1` otherwise; when that region is smaller
than the request the call sets `*sz` to it and sets `*end_of_buffer` to
true exactly when `write_index ≥ read_index` and `read_index ≠ 0` (the
shortfall at the physical end of the buffer), and otherwise both
out-parameters stay untouched. -/
theorem alloc_contig_amended (rb : RB) (req : Nat) :
    (rb.allocContig req).1 = rb.writeIndex ∧
    (rb.allocContigAvail < req →
        (rb.allocContig req).2.1 = rb.allocContigAvail ∧
        (rb.allocContig req).2.2 =
          some (decide (rb.readIndex ≤ rb.writeIndex) &&
                decide (rb.readIndex ≠ 0))) ∧
    (req ≤ rb.allocContigAvail →
        (rb.allocContig req).2.1 = req ∧
        (rb.allocContig req).2.2 = none) := by
  have hres : (if rb.readIndex ≤ rb.writeIndex then
        if rb.readIndex ≠ 0 then
          (rb.writableCapacity - rb.writeIndex + 1, true)
        else (rb.writableCapacity - rb.writeIndex, false)
      else (rb.readIndex - rb.writeIndex - 1, false)) =
      (rb.allocContigAvail,
        decide (rb.readIndex ≤ rb.writeIndex) &&
          decide (rb.readIndex ≠ 0)) := by
    unfold RB.allocContigAvail
    by_cases hrw : rb.readIndex ≤ rb.writeIndex <;>
      by_cases hr0 : rb.readIndex ≠ 0 <;>
        simp [hrw, hr0, Nat.pos_iff_ne_zero]
  unfold RB.allocContig
  dsimp only
  rw [hres]
  by_cases h : rb.allocContigAvail < req
  · rw [if_pos h]
    exact ⟨rfl, fun _ => ⟨rfl, rfl⟩, fun hx => absurd hx (by omega)⟩
  · rw [if_neg h]
    exact ⟨rfl, fun hx => absurd hx h, fun _ => ⟨rfl, rfl⟩⟩

end RTL

namespace SP

theorem step_inv {s t : PtrState} (hstep : Step s t) (hs : Inv s) :
    Inv t := by
  obtain ⟨⟨a, b, c, d, e, f⟩, S, W⟩ := s
  obtain ⟨h1, h2, h3, h4, h5, h6⟩ := hs
  dsimp only at h1 h2 h3 h4 h5 h6
  subst h1 h2 h3 h4 h5 h6
  cases hstep with
  | copyShared h =>
    have hS : ¬ (a = 0) := by
      have : 1 ≤ a := h
      omega
    unfold Inv CB.incStrong
    refine ⟨?_, ?_, ?_, ?_, ?_, ?_⟩ <;> dsimp only <;> simp [hS]
  | moveShared h => exact ⟨rfl, rfl, rfl, rfl, rfl, rfl⟩
  | dropShared h =>
    have hS : ¬ (a = 0) := by
      have : 1 ≤ a := h
      omega
    unfold Inv CB.sharedReset CB.decStrong CB.deinit CB.decWeak CB.freeBlock
    by_cases hA1 : a = 1
    · subst hA1
      by_cases hW : W = 0 <;>
        refine ⟨?_, ?_, ?_, ?_, ?_, ?_⟩ <;> dsimp only <;> simp [hW]
    · have hA2 : ¬ (a - 1 = 0) := by omega
      refine ⟨?_, ?_, ?_, ?_, ?_, ?_⟩ <;> dsimp only <;>
        simp [hS, hA1, hA2]
  | weakFromShared h =>
    have hS : ¬ (a = 0) := by
      have : 1 ≤ a := h
      omega
    unfold Inv CB.incWeak
    refine ⟨?_, ?_, ?_, ?_, ?_, ?_⟩ <;> dsimp only <;> simp [hS]
  | copyWeak h =>
    have hW : ¬ (W = 0) := by
      have : 1 ≤ W := h
      omega
    unfold Inv CB.incWeak
    refine ⟨?_, ?_, ?_, ?_, ?_, ?_⟩ <;> dsimp only <;>
      by_cases hS : a = 0 <;> simp [hS, hW]
  | moveWeak h => exact ⟨rfl, rfl, rfl, rfl, rfl, rfl⟩
  | dropWeak h =>
    have hW : ¬ (W = 0) := by
      have : 1 ≤ W := h
      omega
    unfold Inv CB.weakReset CB.decWeak CB.freeBlock
    by_cases hW1 : W = 1
    · subst hW1
      by_cases hS : a = 0 <;>
        refine ⟨?_, ?_, ?_, ?_, ?_, ?_⟩ <;> dsimp only <;> simp [hS]
    · have hW2 : ¬ (W - 1 = 0) := by omega
      by_cases hS : a = 0 <;>
        refine ⟨?_, ?_, ?_, ?_, ?_, ?_⟩ <;> dsimp only <;>
          (simp [hS, hW1, hW2, hW]; try omega)
  | lock h =>
    unfold Inv CB.lock CB.incStrong
    by_cases hS : a = 0
    · subst hS
      refine ⟨?_, ?_, ?_, ?_, ?_, ?_⟩ <;> dsimp only <;> simp
    · refine ⟨?_, ?_, ?_, ?_, ?_, ?_⟩ <;> dsimp only <;>
        simp [hS]

theorem inv_of_reach (s : PtrState) (h : Reach s) : Inv s := by
  induction h with
  | init =>
      unfold Inv initState CB.incStrong
      decide
  | step s t _ hstep ih => exact step_inv hstep ih

/-- C7: throughout every single-threaded sequence of shared/weak pointer
operations on a control block created by `make_shared` (construction,
copy, move, assignment, reset, `weak_ptr::lock`, destruction), the weak
count is at least 1 whenever the strong count is at least 1; the payload
destructor has run exactly once as soon as the strong count is 0 (and
has not run before); and the control block is deallocated exactly once,
exactly when the weak count reaches 0. -/
theorem smart_ptr_counting (s : PtrState) (h : Reach s) :
    (1 ≤ s.cb.strong → 1 ≤ s.cb.weak) ∧
    s.cb.destroyCount = (if s.cb.strong = 0 then 1 else 0) ∧
    (s.cb.blockFreed = true ↔ s.cb.weak = 0) ∧
    s.cb.freeCount = (if s.cb.weak = 0 then 1 else 0) := by
  obtain ⟨h1, h2, h3, h4, h5, h6⟩ := inv_of_reach s h
  rw [h1, h2, h4, h5, h6]
  by_cases hS : s.strongs = 0 <;> by_cases hW : s.weaks = 0 <;>
    simp [hS, hW]

/-- Witness for `smart_ptr_counting` at the state right after
`make_shared`. -/
theorem smart_ptr_counting_witness :
    (1 ≤ initState.cb.strong → 1 ≤ initState.cb.weak) ∧
    initState.cb.destroyCount = (if initState.cb.strong = 0 then 1 else 0) ∧
    (initState.cb.blockFreed = true ↔ initState.cb.weak = 0) ∧
    initState.cb.freeCount = (if initState.cb.weak = 0 then 1 else 0) :=
  smart_ptr_counting initState Reach.init

end SP

namespace HM

/-! ### List utilities -/

theorem set_concat_last {α : Type} (l : List α) (x y : α) :
    (l ++ [x]).set l.length y = l ++ [y] := by
  induction l with
  | nil => rfl
  | cons a as ih => simp [List.set, ih]

theorem set_getD_self {α : Type} (l : List α) (i : Nat) (d : α)
    (h : i < l.length) : l.set i (l.getD i d) = l := by
  induction l generalizing i with
  | nil => simp at h
  | cons a as ih =>
      cases i with
      | zero => simp [List.getD]
      | succ n =>
          simp only [List.set, List.getD_cons_succ]
          rw [ih n (by simpa using h)]

theorem findKey_concat_ne {K V : Type} [DecidableEq K]
    (l : List (Entry K V)) (e : Entry K V) (q : K) (h : ¬ e.key = q) :
    (l ++ [e]).find? (fun x => decide (x.key = q)) =
      l.find? (fun x => decide (x.key = q)) := by
  rw [List.find?_append]
  cases hf : l.find? (fun x => decide (x.key = q)) <;>
    simp [List.find?_cons, h]

theorem findKey_concat_self {K V : Type} [DecidableEq K]
    (l : List (Entry K V)) (e : Entry K V)
    (h : ∀ x ∈ l, ¬ x.key = e.key) :
    (l ++ [e]).find? (fun x => decide (x.key = e.key)) = some e := by
  rw [List.find?_append]
  have : l.find? (fun x => decide (x.key = e.key)) = none := by
    rw [List.find?_eq_none]
    intro x hx
    simpa using h x hx
  simp [this, List.find?_cons]

theorem findIdx_concat_self {K V : Type} [DecidableEq K]
    (l : List (Entry K V)) (e : Entry K V)
    (h : ∀ x ∈ l, ¬ x.key = e.key) :
    (l ++ [e]).findIdx? (fun x => decide (x.key = e.key)) =
      some l.length := by
  rw [List.findIdx?_append]
  have h1 : l.findIdx? (fun x => decide (x.key = e.key)) = none := by
    rw [List.findIdx?_eq_none_iff]
    intro x hx
    simpa using h x hx
  simp [h1, List.findIdx?]

theorem findKey_none_of_findIdx_none {K V : Type} [DecidableEq K]
    (l : List (Entry K V)) (q : K)
    (h : l.findIdx? (fun x => decide (x.key = q)) = none) :
    l.find? (fun x => decide (x.key = q)) = none := by
  rw [List.find?_eq_none]
  rw [List.findIdx?_eq_none_iff] at h
  intro x hx
  simpa using h x hx

theorem okO_Ok : okO.Ok := fun _ => rfl

/-! ### Allocator and vector facts -/

theorem alloc_ok1 {a : AllocO} (h : a.Ok) : a.alloc.1 = true := by
  unfold AllocO.alloc
  simp [h a.tick]

theorem alloc_failAt (a : AllocO) : a.alloc.2.failAt = a.failAt := rfl

theorem Ok_of_failAt_eq {a b : AllocO} (h : a.Ok) (hf : b.failAt = a.failAt) :
    b.Ok := by
  intro i
  rw [hf]
  exact h i

theorem reserve_failAt {α : Type} (v : Vec α) (n : Nat) (a : AllocO) :
    (v.reserve n a).2.2.failAt = a.failAt := by
  unfold Vec.reserve
  split
  · rfl
  · dsimp only
    split <;> rfl

theorem reserve_data {α : Type} (v : Vec α) (n : Nat) (a : AllocO) :
    (v.reserve n a).2.1.data = v.data := by
  unfold Vec.reserve
  split
  · rfl
  · dsimp only
    split <;> rfl

theorem reserve_ok1 {α : Type} (v : Vec α) (n : Nat) {a : AllocO}
    (h : a.Ok) : (v.reserve n a).1 = true := by
  unfold Vec.reserve
  split
  · rfl
  · simp [alloc_ok1 h]

theorem pushBack_spec {α : Type} (v : Vec α) (x : α) (a : AllocO) :
    ((v.pushBack x a).1 = true →
      (v.pushBack x a).2.1.data = v.data ++ [x]) ∧
    (v.pushBack x a).2.2.failAt = a.failAt := by
  unfold Vec.pushBack
  split
  · dsimp only
    by_cases hr :
        (v.reserve (if v.cap = 0 then 1 else 2 * v.cap) a).1 = true
    · rw [if_pos hr]
      exact ⟨fun _ => by rw [reserve_data], reserve_failAt _ _ _⟩
    · rw [if_neg hr]
      exact ⟨fun hcon => by simp at hcon, reserve_failAt _ _ _⟩
  · exact ⟨fun _ => rfl, rfl⟩

theorem pushBack_ok1 {α : Type} (v : Vec α) (x : α) {a : AllocO}
    (h : a.Ok) : (v.pushBack x a).1 = true := by
  unfold Vec.pushBack
  split
  · simp [reserve_ok1 _ _ h]
  · rfl

/-! ### List index and sum helpers -/

theorem getD_set_self {α : Type} (l : List α) (i : Nat) (x d : α)
    (h : i < l.length) : (l.set i x).getD i d = x := by
  rw [List.getD_eq_getElem?_getD, List.getElem?_set_self',
    List.getElem?_eq_getElem h]
  rfl

theorem getD_set_ne {α : Type} (l : List α) (i j : Nat) (x d : α)
    (h : i ≠ j) : (l.set i x).getD j d = l.getD j d := by
  rw [List.getD_eq_getElem?_getD, List.getElem?_set_ne h,
    ← List.getD_eq_getElem?_getD]

theorem sum_set_of_lt (L : List Nat) (n a : Nat) (h : n < L.length) :
    (L.set n a).sum + L.getD n 0 = L.sum + a := by
  induction L generalizing n with
  | nil => simp at h
  | cons x xs ih =>
      cases n with
      | zero =>
          simp only [List.set, List.sum_cons, List.getD_cons_zero]
          omega
      | succ m =>
          simp only [List.set, List.sum_cons, List.getD_cons_succ]
          have := ih m (by simpa using h)
          omega

theorem sum_zero_all_zero (L : List Nat) (h : L.sum = 0) :
    ∀ x ∈ L, x = 0 := by
  induction L with
  | nil => simp
  | cons x xs ih =>
      simp only [List.sum_cons] at h
      intro y hy
      rcases List.mem_cons.mp hy with rfl | hmem
      · omega
      · exact ih (by omega) y hmem

theorem exists_key_of_findIdx {K V : Type} [DecidableEq K]
    (l : List (Entry K V)) (k : K) (i : Nat)
    (h : l.findIdx? (fun x => decide (x.key = k)) = some i) :
    ∃ e ∈ l, e.key = k := by
  cases hf : l.find? (fun x => decide (x.key = k)) with
  | none =>
      exfalso
      rw [List.find?_eq_none] at hf
      have hnone : l.findIdx? (fun x => decide (x.key = k)) = none := by
        rw [List.findIdx?_eq_none_iff]
        intro x hx
        simpa using hf x hx
      rw [hnone] at h
      cases h
  | some e =>
      exact ⟨e, List.mem_of_find?_eq_some hf,
        by simpa using List.find?_some hf⟩

/-! ### `Table.getOrCreate` characterization -/

theorem getOrCreate_spec {K V : Type} [DecidableEq K] (hk : K → Nat)
    (t : Table K V) (k : K) (a : AllocO) (hnb : 0 < t.numBuckets)
    (hblen : t.buckets.data.length = t.numBuckets) :
    (t.getOrCreate hk k a).a.failAt = a.failAt ∧
    (t.getOrCreate hk k a).t.numBuckets = t.numBuckets ∧
    (t.getOrCreate hk k a).t.power = t.power ∧
    (t.getOrCreate hk k a).t.buckets.data.length = t.buckets.data.length ∧
    (a.Ok → (t.getOrCreate hk k a).ok = true) ∧
    ((t.getOrCreate hk k a).ok = true →
      (t.getOrCreate hk k a).created = true →
        (t.getOrCreate hk k a).bIdx = t.bucketIdx hk k ∧
        (t.getOrCreate hk k a).eIdx =
          (bucketAt t (t.bucketIdx hk k)).data.length ∧
        (bucketAt t (t.bucketIdx hk k)).data.find?
          (fun x => decide (x.key = k)) = none ∧
        (∃ c, (t.getOrCreate hk k a).t.buckets.data =
          t.buckets.data.set (t.bucketIdx hk k)
            ⟨(bucketAt t (t.bucketIdx hk k)).data ++ [⟨k, none⟩], c⟩) ∧
        (t.getOrCreate hk k a).t.totalEntries = t.totalEntries + 1) ∧
    ((t.getOrCreate hk k a).ok = true →
      (t.getOrCreate hk k a).created = false →
        (t.getOrCreate hk k a).t = t ∧ hasKeyT hk t k) ∧
    ((t.getOrCreate hk k a).ok = false → (t.getOrCreate hk k a).t = t) := by
  have hbi : t.bucketIdx hk k < t.numBuckets := Nat.mod_lt _ hnb
  unfold bucketAt hasKeyT
  unfold Table.getOrCreate
  rw [if_neg (by omega)]
  dsimp only
  unfold bucketGetOrCreate
  cases hidx : bucketFindIdx
      (t.buckets.data.getD (t.bucketIdx hk k) Vec.nil) k with
  | some i =>
      dsimp only
      refine ⟨rfl, rfl, rfl, by simp, fun _ => rfl, ?_, ?_, ?_⟩
      · intro _ hcr
        simp at hcr
      · intro _ _
        constructor
        · show
            ({ t with
                buckets := ⟨t.buckets.data.set (t.bucketIdx hk k)
                  (t.buckets.data.getD (t.bucketIdx hk k) Vec.nil),
                  t.buckets.cap⟩,
                totalEntries := t.totalEntries } : Table K V) = t
          rw [set_getD_self _ _ _ (by omega)]
        · unfold bucketFindIdx at hidx
          unfold bucketAt
          exact exists_key_of_findIdx _ _ _ hidx
      · intro h
        simp at h
  | none =>
      dsimp only
      by_cases hpb : ((t.buckets.data.getD (t.bucketIdx hk k)
          Vec.nil).pushBack ⟨k, none⟩ a).1 = true
      · rw [if_pos hpb]
        dsimp only
        have hdata := (pushBack_spec (t.buckets.data.getD
          (t.bucketIdx hk k) Vec.nil) ⟨k, none⟩ a).1 hpb
        refine ⟨(pushBack_spec _ _ _).2, rfl, rfl, by simp,
          fun _ => rfl, ?_, ?_, ?_⟩
        · intro _ _
          refine ⟨rfl, ?_, ?_, ?_, rfl⟩
          · rw [hdata]
            simp
          · unfold bucketFindIdx at hidx
            exact findKey_none_of_findIdx_none _ _ hidx
          · refine ⟨((t.buckets.data.getD (t.bucketIdx hk k)
              Vec.nil).pushBack ⟨k, none⟩ a).2.1.cap, ?_⟩
            show t.buckets.data.set (t.bucketIdx hk k) _ = _
            congr 1
            show ((t.buckets.data.getD (t.bucketIdx hk k)
              Vec.nil).pushBack ⟨k, none⟩ a).2.1 = _
            cases hv : ((t.buckets.data.getD (t.bucketIdx hk k)
                Vec.nil).pushBack ⟨k, none⟩ a).2.1 with
            | mk d c =>
                rw [hv] at hdata
                simp only at hdata
                rw [hdata]
        · intro _ hcr
          simp at hcr
        · intro h
          simp at h
      · rw [if_neg hpb]
        dsimp only
        refine ⟨(pushBack_spec _ _ _).2, rfl, rfl, by simp, ?_, ?_, ?_, ?_⟩
        · intro hOk
          exact absurd (pushBack_ok1 _ _ hOk) hpb
        · intro hok _
          simp at hok
        · intro hok _
          simp at hok
        · intro _
          show
            ({ t with
                buckets := ⟨t.buckets.data.set (t.bucketIdx hk k)
                  (t.buckets.data.getD (t.bucketIdx hk k) Vec.nil),
                  t.buckets.cap⟩,
                totalEntries := t.totalEntries } : Table K V) = t
          rw [set_getD_self _ _ _ (by omega)]

/-! ### `Table.getB` under bucket surgery -/

theorem getB_eq_bucketGet {K V : Type} [DecidableEq K] (hk : K → Nat)
    (t : Table K V) (q : K) (hnb : 0 < t.numBuckets) :
    t.getB hk q = bucketGet (bucketAt t (t.bucketIdx hk q)) q := by
  unfold Table.getB bucketAt
  rw [if_neg (by omega)]

theorem getB_ext {K V : Type} [DecidableEq K] (hk : K → Nat)
    (t1 t2 : Table K V) (hb : t1.buckets.data = t2.buckets.data)
    (hn : t1.numBuckets = t2.numBuckets) (q : K) :
    t1.getB hk q = t2.getB hk q := by
  unfold Table.getB Table.bucketIdx
  rw [hb, hn]

theorem getB_set_bucket {K V : Type} [DecidableEq K] (hk : K → Nat)
    (t t2 : Table K V) (bi : Nat) (newb : Vec (Entry K V))
    (hb : t2.buckets.data = t.buckets.data.set bi newb)
    (hn : t2.numBuckets = t.numBuckets)
    (hnb : 0 < t.numBuckets)
    (hblen : t.buckets.data.length = t.numBuckets)
    (hbi : bi < t.numBuckets) (q : K) :
    t2.getB hk q =
      if t.bucketIdx hk q = bi then bucketGet newb q
      else t.getB hk q := by
  have hq2 : t2.bucketIdx hk q = t.bucketIdx hk q := by
    unfold Table.bucketIdx
    rw [hn]
  rw [getB_eq_bucketGet hk t2 q (by omega)]
  unfold bucketAt
  rw [hb, hq2]
  by_cases hcase : t.bucketIdx hk q = bi
  · rw [hcase, if_pos rfl, getD_set_self _ _ _ _ (by omega)]
  · rw [if_neg hcase,
      getD_set_ne _ _ _ _ _ (fun hEq => hcase hEq.symm),
      getB_eq_bucketGet hk t q hnb]
    rfl

theorem getB_isSome_of_hasKey {K V : Type} [DecidableEq K] (hk : K → Nat)
    (t : Table K V) (k : K) (h : hasKeyT hk t k) (hvs : ValsSomeT t)
    (hnb : 0 < t.numBuckets) : (t.getB hk k).isSome = true := by
  obtain ⟨e, he, hkey⟩ := h
  rw [getB_eq_bucketGet hk t k hnb]
  unfold bucketGet
  cases hf : (bucketAt t (t.bucketIdx hk k)).data.find?
      (fun x => decide (x.key = k)) with
  | none =>
      exfalso
      rw [List.find?_eq_none] at hf
      exact hf e he (by simpa using hkey)
  | some e2 =>
      exact hvs _ e2 (List.mem_of_find?_eq_some hf)

theorem getB_none_of_find_none {K V : Type} [DecidableEq K] (hk : K → Nat)
    (t : Table K V) (k : K) (hnb : 0 < t.numBuckets)
    (hf : (bucketAt t (t.bucketIdx hk k)).data.find?
      (fun x => decide (x.key = k)) = none) :
    t.getB hk k = none := by
  rw [getB_eq_bucketGet hk t k hnb]
  unfold bucketGet
  rw [hf]

theorem hasKeyT_mono_set_concat {K V : Type} [DecidableEq K]
    (hk : K → Nat) (t t2 : Table K V) (bi : Nat) (e : Entry K V) (c : Nat)
    (hb : t2.buckets.data =
      t.buckets.data.set bi ⟨(bucketAt t bi).data ++ [e], c⟩)
    (hn : t2.numBuckets = t.numBuckets)
    (hblen : t.buckets.data.length = t.numBuckets)
    (hbi : bi < t.numBuckets) :
    ∀ k2, hasKeyT hk t k2 → hasKeyT hk t2 k2 := by
  intro k2 hh
  obtain ⟨e2, he2, hk2⟩ := hh
  refine ⟨e2, ?_, hk2⟩
  unfold bucketAt Table.bucketIdx at he2 ⊢
  rw [hb, hn]
  by_cases hcase : hk k2 % t.numBuckets = bi
  · rw [hcase] at he2 ⊢
    rw [getD_set_self _ _ _ _ (by omega)]
    exact List.mem_append_left _ he2
  · rw [getD_set_ne _ _ _ _ _ (fun hEq => hcase hEq.symm)]
    exact he2

theorem TWF_set_concat {K V : Type} [DecidableEq K] (hk : K → Nat)
    (t t2 : Table K V) (e : Entry K V) (c : Nat) (hwf : TWF hk t)
    (hb : t2.buckets.data = t.buckets.data.set (t.bucketIdx hk e.key)
      ⟨(bucketAt t (t.bucketIdx hk e.key)).data ++ [e], c⟩)
    (hn : t2.numBuckets = t.numBuckets)
    (hfind : (bucketAt t (t.bucketIdx hk e.key)).data.find?
      (fun x => decide (x.key = e.key)) = none) :
    TWF hk t2 := by
  have hbi : t.bucketIdx hk e.key < t.numBuckets :=
    Nat.mod_lt _ hwf.nbpos
  have hbl : t.bucketIdx hk e.key < t.buckets.data.length := by
    rw [hwf.blen]
    omega
  refine ⟨?_, ?_, ?_, ?_⟩
  · rw [hb, List.length_set, hwf.blen, hn]
  · rw [hn]
    exact hwf.nbpos
  · intro bi hbi2 e2 he2
    rw [hn] at hbi2 ⊢
    unfold bucketAt at he2
    rw [hb] at he2
    by_cases hcase : bi = t.bucketIdx hk e.key
    · subst hcase
      rw [getD_set_self _ _ _ _ hbl] at he2
      simp only [List.mem_append, List.mem_singleton] at he2
      rcases he2 with h1 | rfl
      · exact hwf.placed _ hbi2 e2 h1
      · rfl
    · rw [getD_set_ne _ _ _ _ _ (fun hEq => hcase hEq.symm)] at he2
      exact hwf.placed _ hbi2 e2 he2
  · intro bi hbi2
    rw [hn] at hbi2
    unfold bucketAt
    rw [hb]
    by_cases hcase : bi = t.bucketIdx hk e.key
    · subst hcase
      rw [getD_set_self _ _ _ _ hbl]
      show (keysOf ((bucketAt t (t.bucketIdx hk e.key)).data ++ [e])).Nodup
      unfold keysOf
      rw [List.map_append]
      have hnotin : e.key ∉
          (bucketAt t (t.bucketIdx hk e.key)).data.map
            (fun x => x.key) := by
        rw [List.find?_eq_none] at hfind
        intro hmem
        rcases List.mem_map.mp hmem with ⟨x, hx, hxk⟩
        exact hfind x hx (by simpa using hxk)
      have hnd := hwf.nodup _ hbi2
      unfold keysOf at hnd
      simp [List.nodup_append, hnd]
      intro x hx hxk
      have hm : x.key ∈ (bucketAt t (t.bucketIdx hk e.key)).data.map
          (fun y => y.key) := List.mem_map_of_mem (fun y => y.key) hx
      rw [hxk] at hm
      exact hnotin hm
    · rw [getD_set_ne _ _ _ _ _ (fun hEq => hcase hEq.symm)]
      exact hwf.nodup _ hbi2
  

theorem ValsSomeT_set_concat {K V : Type} [DecidableEq K]
    (t t2 : Table K V) (bi : Nat) (e : Entry K V) (c : Nat)
    (hvs : ValsSomeT t)
    (hb : t2.buckets.data =
      t.buckets.data.set bi ⟨(bucketAt t bi).data ++ [e], c⟩)
    (hblen : bi < t.buckets.data.length)
    (he : e.val.isSome = true) :
    ValsSomeT t2 := by
  intro bj e2 he2
  unfold bucketAt at he2
  rw [hb] at he2
  by_cases hcase : bj = bi
  · subst hcase
    rw [getD_set_self _ _ _ _ hblen] at he2
    simp only [List.mem_append, List.mem_singleton] at he2
    rcases he2 with h1 | rfl
    · exact hvs _ e2 h1
    · exact he
  · rw [getD_set_ne _ _ _ _ _ (fun hEq => hcase hEq.symm)] at he2
    exact hvs _ e2 he2

theorem bucketSum_set_concat {K V : Type} (t t2 : Table K V) (bi : Nat)
    (e : Entry K V) (c : Nat)
    (hb : t2.buckets.data =
      t.buckets.data.set bi ⟨(bucketAt t bi).data ++ [e], c⟩)
    (hbl : bi < t.buckets.data.length) :
    bucketSum t2 = bucketSum t + 1 := by
  unfold bucketSum
  rw [hb, List.map_set]
  have hlen : ((⟨(bucketAt t bi).data ++ [e], c⟩ :
      Vec (Entry K V)).data.length) = (bucketAt t bi).data.length + 1 := by
    simp
  rw [hlen]
  have hsum := sum_set_of_lt
    ((t.buckets.data).map (fun b => b.data.length)) bi
    ((bucketAt t bi).data.length + 1) (by simpa using hbl)
  have hget : ((t.buckets.data).map
      (fun b => b.data.length)).getD bi 0 =
      (bucketAt t bi).data.length := by
    rw [List.getD_eq_getElem?_getD, List.getElem?_map,
      List.getElem?_eq_getElem hbl]
    unfold bucketAt
    rw [List.getD_eq_getElem?_getD, List.getElem?_eq_getElem hbl]
    rfl
  rw [hget] at hsum
  omega

/-! ### Chain and bucket-replacement helpers -/

theorem bucketGet_eq_val_of_find {K V : Type} [DecidableEq K]
    (b : Vec (Entry K V)) (k : K) (e : Entry K V)
    (h : b.data.find? (fun x => decide (x.key = k)) = some e) :
    bucketGet b k = e.val := by
  unfold bucketGet
  rw [h]

theorem bucketGet_none_of_find {K V : Type} [DecidableEq K]
    (b : Vec (Entry K V)) (k : K)
    (h : b.data.find? (fun x => decide (x.key = k)) = none) :
    bucketGet b k = none := by
  unfold bucketGet
  rw [h]

theorem not_hasKey_of_find_none {K V : Type} [DecidableEq K]
    (hk : K → Nat) (sec : Table K V) (k : K)
    (hfind : (bucketAt sec (sec.bucketIdx hk k)).data.find?
      (fun x => decide (x.key = k)) = none) :
    ¬ hasKeyT hk sec k := by
  intro hh
  obtain ⟨x, hx, hxk⟩ := hh
  rw [List.find?_eq_none] at hfind
  exact hfind x hx (by simpa using hxk)

theorem keys_concat_nodup_ne {K V : Type} [DecidableEq K]
    (l : List (Entry K V)) (e : Entry K V)
    (h : (keysOf (l ++ [e])).Nodup) : ∀ x ∈ l, ¬ x.key = e.key := by
  unfold keysOf at h
  rw [List.map_append] at h
  rcases List.nodup_append.mp h with ⟨_, _, hdisj⟩
  intro x hx hxk
  exact hdisj (List.mem_map_of_mem (fun y => y.key) hx) (by simp [hxk])

theorem chain_ext {K V : Type} [DecidableEq K] (hk : K → Nat)
    (mn1 mn2 sec1 sec2 : Table K V)
    (hm : mn1.buckets.data = mn2.buckets.data)
    (hmn : mn1.numBuckets = mn2.numBuckets)
    (hs : sec1.buckets.data = sec2.buckets.data)
    (hsn : sec1.numBuckets = sec2.numBuckets) (q : K) :
    chain hk mn1 sec1 q = chain hk mn2 sec2 q := by
  unfold chain
  rw [getB_ext hk sec1 sec2 hs hsn, getB_ext hk mn1 mn2 hm hmn]

theorem getB_tableWith {K V : Type} [DecidableEq K] (hk : K → Nat)
    (mn : Table K V) (cur : Nat) (bd : List (Entry K V)) (c : Nat)
    (hnb : 0 < mn.numBuckets)
    (hblen : mn.buckets.data.length = mn.numBuckets)
    (hcur : cur < mn.numBuckets) (q : K) :
    (tableWith mn cur bd c).getB hk q =
      if mn.bucketIdx hk q = cur then
        bucketGet ⟨bd, (bucketAt mn cur).cap⟩ q
      else mn.getB hk q :=
  getB_set_bucket hk mn (tableWith mn cur bd c) cur
    ⟨bd, (bucketAt mn cur).cap⟩ rfl rfl hnb hblen hcur q

theorem setEntry_after_create {K V : Type} (t t2 : Table K V) (bi : Nat)
    (k : K) (e : Entry K V) (c : Nat) (bd : List (Entry K V))
    (ht2 : t2.buckets.data =
      t.buckets.data.set bi ⟨bd ++ [⟨k, none⟩], c⟩)
    (hbi : bi < t.buckets.data.length) :
    (t2.setEntry bi bd.length e).buckets.data =
        t.buckets.data.set bi ⟨bd ++ [e], c⟩ ∧
    (t2.setEntry bi bd.length e).numBuckets = t2.numBuckets ∧
    (t2.setEntry bi bd.length e).totalEntries = t2.totalEntries ∧
    (t2.setEntry bi bd.length e).power = t2.power := by
  unfold Table.setEntry
  refine ⟨?_, rfl, rfl, rfl⟩
  dsimp only
  rw [ht2, getD_set_self _ _ _ _ hbi, List.set_set]
  show t.buckets.data.set bi
    (⟨(bd ++ [(⟨k, none⟩ : Entry K V)]).set bd.length e, c⟩ :
      Vec (Entry K V)) = _
  rw [set_concat_last]

theorem step_created {K V : Type} [DecidableEq K] (hk : K → Nat)
    (mn : Table K V) (cur : Nat) (sec sec2 : Table K V)
    (e : Entry K V) (rest : List (Entry K V)) (c : Nat)
    (hmnWF : TWF hk mn) (hcur : cur < mn.numBuckets)
    (hplaced : ∀ x ∈ e :: rest, hk x.key % mn.numBuckets = cur)
    (hnodup : (keysOf (e :: rest).reverse).Nodup)
    (hsWF : TWF hk sec)
    (hfind : (bucketAt sec (sec.bucketIdx hk e.key)).data.find?
      (fun x => decide (x.key = e.key)) = none)
    (hsec2 : sec2.buckets.data = sec.buckets.data.set
      (sec.bucketIdx hk e.key)
      ⟨(bucketAt sec (sec.bucketIdx hk e.key)).data ++ [e], c⟩)
    (hsec2n : sec2.numBuckets = sec.numBuckets)
    (hev : e.val.isSome = true)
    (q : K) (c1 c2 : Nat) :
    chain hk (tableWith mn cur rest.reverse c1) sec2 q =
      chain hk (tableWith mn cur (e :: rest).reverse c2) sec q := by
  have hsnb : 0 < sec.numBuckets := hsWF.nbpos
  have hsbi : sec.bucketIdx hk e.key < sec.numBuckets :=
    Nat.mod_lt _ hsnb
  have hmnb : 0 < mn.numBuckets := hmnWF.nbpos
  have hrev : (e :: rest).reverse = rest.reverse ++ [e] := by simp
  have hnotin : ∀ x ∈ (bucketAt sec (sec.bucketIdx hk e.key)).data,
      ¬ x.key = e.key := by
    rw [List.find?_eq_none] at hfind
    intro x hx hxk
    exact hfind x hx (by simpa using hxk)
  have hrestne : ∀ x ∈ rest.reverse, ¬ x.key = e.key := by
    rw [hrev] at hnodup
    exact keys_concat_nodup_ne _ _ hnodup
  have hs2 := getB_set_bucket hk sec sec2 _ _ hsec2 hsec2n hsnb
    hsWF.blen hsbi q
  have hm1 := getB_tableWith hk mn cur rest.reverse c1 hmnb
    hmnWF.blen hcur q
  have hm2 := getB_tableWith hk mn cur (e :: rest).reverse c2 hmnb
    hmnWF.blen hcur q
  unfold chain
  rw [hs2, hm1, hm2]
  by_cases hq : q = e.key
  · subst hq
    rw [if_pos rfl]
    have hL : bucketGet
        (⟨(bucketAt sec (sec.bucketIdx hk e.key)).data ++ [e], c⟩ :
          Vec (Entry K V)) e.key = e.val := by
      apply bucketGet_eq_val_of_find
      exact findKey_concat_self _ e hnotin
    have hRs : sec.getB hk e.key = none :=
      getB_none_of_find_none hk sec e.key hsnb hfind
    have hmnIdx : mn.bucketIdx hk e.key = cur :=
      hplaced e (List.mem_cons_self e rest)
    have hR2 : bucketGet
        (⟨(e :: rest).reverse, (bucketAt mn cur).cap⟩ :
          Vec (Entry K V)) e.key = e.val := by
      apply bucketGet_eq_val_of_find
      show ((e :: rest).reverse).find? _ = _
      rw [hrev]
      exact findKey_concat_self _ e hrestne
    obtain ⟨v, hv⟩ := Option.isSome_iff_exists.mp hev
    rw [hL, hRs, hv]
    dsimp only
    rw [if_pos hmnIdx, hR2, hv]
  · have hLs : bucketGet
        (⟨(bucketAt sec (sec.bucketIdx hk e.key)).data ++ [e], c⟩ :
          Vec (Entry K V)) q =
        bucketGet (bucketAt sec (sec.bucketIdx hk e.key)) q := by
      unfold bucketGet
      show (match ((bucketAt sec (sec.bucketIdx hk e.key)).data ++
        [e]).find? (fun x => decide (x.key = q)) with
        | some x => x.val | none => none) = _
      rw [findKey_concat_ne _ e q (fun h => hq h.symm)]
    have hMEq : bucketGet
        (⟨(e :: rest).reverse, (bucketAt mn cur).cap⟩ :
          Vec (Entry K V)) q =
        bucketGet (⟨rest.reverse, (bucketAt mn cur).cap⟩ :
          Vec (Entry K V)) q := by
      unfold bucketGet
      show (match ((e :: rest).reverse).find?
        (fun x => decide (x.key = q)) with
        | some x => x.val | none => none) = _
      rw [hrev, findKey_concat_ne _ e q (fun h => hq h.symm)]
    by_cases hsb : sec.bucketIdx hk q = sec.bucketIdx hk e.key
    · rw [if_pos hsb, hLs, ← hsb, ← getB_eq_bucketGet hk sec q hsnb]
      cases hg : sec.getB hk q with
      | some v => rfl
      | none =>
          dsimp only
          by_cases hmb : mn.bucketIdx hk q = cur
          · rw [if_pos hmb, if_pos hmb]
            exact hMEq.symm
          · rw [if_neg hmb, if_neg hmb]
    · rw [if_neg hsb]
      cases hg : sec.getB hk q with
      | some v => rfl
      | none =>
          dsimp only
          by_cases hmb : mn.bucketIdx hk q = cur
          · rw [if_pos hmb, if_pos hmb]
            exact hMEq.symm
          · rw [if_neg hmb, if_neg hmb]

theorem step_found {K V : Type} [DecidableEq K] (hk : K → Nat)
    (mn : Table K V) (cur : Nat) (sec : Table K V)
    (e : Entry K V) (rest : List (Entry K V))
    (hmnWF : TWF hk mn) (hcur : cur < mn.numBuckets)
    (hsWF : TWF hk sec) (hsVS : ValsSomeT sec)
    (hhas : hasKeyT hk sec e.key)
    (q : K) (c1 c2 : Nat) :
    chain hk (tableWith mn cur rest.reverse c1) sec q =
      chain hk (tableWith mn cur (e :: rest).reverse c2) sec q := by
  have hsnb : 0 < sec.numBuckets := hsWF.nbpos
  have hmnb : 0 < mn.numBuckets := hmnWF.nbpos
  have hrev : (e :: rest).reverse = rest.reverse ++ [e] := by simp
  have hm1 := getB_tableWith hk mn cur rest.reverse c1 hmnb
    hmnWF.blen hcur q
  have hm2 := getB_tableWith hk mn cur (e :: rest).reverse c2 hmnb
    hmnWF.blen hcur q
  unfold chain
  rw [hm1, hm2]
  by_cases hq : q = e.key
  · subst hq
    obtain ⟨v, hv⟩ := Option.isSome_iff_exists.mp
      (getB_isSome_of_hasKey hk sec e.key hhas hsVS hsnb)
    rw [hv]
  · have hMEq : bucketGet
        (⟨(e :: rest).reverse, (bucketAt mn cur).cap⟩ :
          Vec (Entry K V)) q =
        bucketGet (⟨rest.reverse, (bucketAt mn cur).cap⟩ :
          Vec (Entry K V)) q := by
      unfold bucketGet
      show (match ((e :: rest).reverse).find?
        (fun x => decide (x.key = q)) with
        | some x => x.val | none => none) = _
      rw [hrev, findKey_concat_ne _ e q (fun h => hq h.symm)]
    cases hg : sec.getB hk q with
    | some v => rfl
    | none =>
        dsimp only
        by_cases hmb : mn.bucketIdx hk q = cur
        · rw [if_pos hmb, if_pos hmb]
          exact hMEq.symm
        · rw [if_neg hmb, if_neg hmb]

/-! ### The inner transfer loop -/

theorem transferFromBucket_spec {K V : Type} [DecidableEq K]
    (hk : K → Nat) (mn : Table K V) (cur : Nat) (hmnWF : TWF hk mn)
    (hcur : cur < mn.numBuckets) :
    ∀ (rev : List (Entry K V)) (sec : Table K V) (budget count : Nat)
      (a : AllocO) (res : ChunkRes K V),
      transferFromBucket hk rev sec budget count a = res →
      (∀ x ∈ rev, hk x.key % mn.numBuckets = cur) →
      (keysOf rev.reverse).Nodup →
      TWF hk sec → ValsSomeT sec →
      (∀ x ∈ rev, x.val = none → hasKeyT hk sec x.key) →
      res.a.failAt = a.failAt ∧
      res.sec.numBuckets = sec.numBuckets ∧
      res.sec.power = sec.power ∧
      res.sec.buckets.data.length = sec.buckets.data.length ∧
      TWF hk res.sec ∧ ValsSomeT res.sec ∧
      (∀ k2, hasKeyT hk sec k2 → hasKeyT hk res.sec k2) ∧
      (CountEQ sec → CountEQ res.sec) ∧
      (a.Ok → res.ok = true) ∧
      (res.ok = true →
        res.bucketRev = rev.drop (min budget rev.length) ∧
        res.budget = budget - min budget rev.length ∧
        res.count = count - min budget rev.length ∧
        (∀ (q : K) (c1 c2 : Nat),
          chain hk (tableWith mn cur res.bucketRev.reverse c1)
              res.sec q =
            chain hk (tableWith mn cur rev.reverse c2) sec q)) := by
  intro rev
  induction rev with
  | nil =>
      intro sec budget count a res hres hplaced hnodup hsWF hsVS hstale
      unfold transferFromBucket at hres
      subst hres
      refine ⟨rfl, rfl, rfl, rfl, hsWF, hsVS, fun _ h => h, fun h => h,
        fun _ => rfl, ?_⟩
      intro _
      refine ⟨by simp, by simp, by simp, ?_⟩
      intro q c1 c2
      exact chain_ext hk _ _ _ _ rfl rfl rfl rfl q
  | cons e rest ih =>
      intro sec budget count a res hres hplaced hnodup hsWF hsVS hstale
      unfold transferFromBucket at hres
      by_cases hbud : budget = 0
      · subst hbud
        rw [if_pos rfl] at hres
        subst hres
        refine ⟨rfl, rfl, rfl, rfl, hsWF, hsVS, fun _ h => h,
          fun h => h, fun _ => rfl, ?_⟩
        intro _
        refine ⟨by simp, by simp, by simp, ?_⟩
        intro q c1 c2
        exact chain_ext hk _ _ _ _ rfl rfl rfl rfl q
      · rw [if_neg hbud] at hres
        dsimp only at hres
        obtain ⟨gFail, gNB, gPow, gLen, gOk, gCreated, gFound, gFailT⟩ :=
          getOrCreate_spec hk sec e.key a hsWF.nbpos hsWF.blen
        have hplaced' : ∀ x ∈ rest, hk x.key % mn.numBuckets = cur :=
          fun x hx => hplaced x (List.mem_cons_of_mem e hx)
        have hrevsplit : (e :: rest).reverse = rest.reverse ++ [e] := by
          simp
        have hnodup' : (keysOf rest.reverse).Nodup := by
          rw [hrevsplit] at hnodup
          unfold keysOf at hnodup ⊢
          rw [List.map_append] at hnodup
          exact (List.nodup_append.mp hnodup).1
        by_cases hok : (sec.getOrCreate hk e.key a).ok = true
        · rw [if_pos hok] at hres
          have haOk : ∀ h : a.Ok, (sec.getOrCreate hk e.key a).a.Ok :=
            fun h => Ok_of_failAt_eq h gFail
          by_cases hcr : (sec.getOrCreate hk e.key a).created = true
          · rw [if_pos hcr] at hres
            obtain ⟨hbIdx, heIdx, hfind, ⟨c, hdata⟩, htot⟩ :=
              gCreated hok hcr
            rw [hbIdx, heIdx] at hres
            have hev : e.val.isSome = true := by
              cases hval : e.val with
              | some v => rfl
              | none =>
                  exact absurd
                    (hstale e (List.mem_cons_self e rest) hval)
                    (not_hasKey_of_find_none hk sec e.key hfind)
            have hbil : sec.bucketIdx hk e.key <
                sec.buckets.data.length := by
              rw [hsWF.blen]
              exact Nat.mod_lt _ hsWF.nbpos
            obtain ⟨hS1, hS2, hS3, hS4⟩ := setEntry_after_create sec
              (sec.getOrCreate hk e.key a).t (sec.bucketIdx hk e.key)
              e.key e c (bucketAt sec (sec.bucketIdx hk e.key)).data
              hdata hbil
            have hn2 : ((sec.getOrCreate hk e.key a).t.setEntry
                (sec.bucketIdx hk e.key)
                (bucketAt sec (sec.bucketIdx hk e.key)).data.length
                  e).numBuckets = sec.numBuckets := hS2.trans gNB
            have hsWF2 := TWF_set_concat hk sec _ e c hsWF hS1 hn2 hfind
            have hsVS2 := ValsSomeT_set_concat sec _
              (sec.bucketIdx hk e.key) e c hsVS hS1 hbil hev
            have hmono := hasKeyT_mono_set_concat hk sec _
              (sec.bucketIdx hk e.key) e c hS1 hn2 hsWF.blen
              (Nat.mod_lt _ hsWF.nbpos)
            have hstale' : ∀ x ∈ rest, x.val = none →
                hasKeyT hk ((sec.getOrCreate hk e.key a).t.setEntry
                  (sec.bucketIdx hk e.key)
                  (bucketAt sec
                    (sec.bucketIdx hk e.key)).data.length e) x.key :=
              fun x hx hv =>
                hmono _ (hstale x (List.mem_cons_of_mem e hx) hv)
            obtain ⟨iFail, iNB, iPow, iLen, iWF, iVS, iMono, iCnt,
                iOk, iRest⟩ :=
              ih _ (budget - 1) (count - 1)
                (sec.getOrCreate hk e.key a).a res hres hplaced'
                hnodup' hsWF2 hsVS2 hstale'
            refine ⟨iFail.trans gFail, iNB.trans hn2,
              iPow.trans (hS4.trans gPow), ?_, iWF, iVS,
              fun k2 h => iMono k2 (hmono k2 h), ?_,
              fun h => iOk (haOk h), ?_⟩
            · rw [iLen, hS1, List.length_set]
            · intro h
              apply iCnt
              unfold CountEQ at h ⊢
              rw [bucketSum_set_concat sec _ (sec.bucketIdx hk e.key)
                e c hS1 hbil, hS3, htot]
              omega
            · intro hroks
              obtain ⟨iDrop, iBud, iCntEq, iChain⟩ := iRest hroks
              have hmin : min budget (e :: rest).length =
                  min (budget - 1) rest.length + 1 := by
                simp only [List.length_cons]
                omega
              refine ⟨?_, ?_, ?_, ?_⟩
              · rw [iDrop, hmin]
                rfl
              · rw [iBud, hmin]
                omega
              · rw [iCntEq, hmin]
                omega
              · intro q c1 c2
                exact (iChain q c1 c2).trans
                  (step_created hk mn cur sec _ e rest c hmnWF hcur
                    hplaced hnodup hsWF hfind hS1 hn2 hev q c2 c2)
          · rw [if_neg hcr] at hres
            obtain ⟨hTeq, hhas⟩ := gFound hok
              (by revert hcr; cases (sec.getOrCreate hk e.key a).created
                <;> simp)
            rw [hTeq] at hres
            obtain ⟨iFail, iNB, iPow, iLen, iWF, iVS, iMono, iCnt,
                iOk, iRest⟩ :=
              ih sec (budget - 1) (count - 1)
                (sec.getOrCreate hk e.key a).a res hres hplaced'
                hnodup' hsWF hsVS
                (fun x hx hv =>
                  hstale x (List.mem_cons_of_mem e hx) hv)
            refine ⟨iFail.trans gFail, iNB, iPow, iLen, iWF, iVS,
              iMono, iCnt, fun h => iOk (haOk h), ?_⟩
            intro hroks
            obtain ⟨iDrop, iBud, iCntEq, iChain⟩ := iRest hroks
            have hmin : min budget (e :: rest).length =
                min (budget - 1) rest.length + 1 := by
              simp only [List.length_cons]
              omega
            refine ⟨?_, ?_, ?_, ?_⟩
            · rw [iDrop, hmin]
              rfl
            · rw [iBud, hmin]
              omega
            · rw [iCntEq, hmin]
              omega
            · intro q c1 c2
              exact (iChain q c1 c2).trans
                (step_found hk mn cur sec e rest hmnWF hcur hsWF hsVS
                  hhas q c2 c2)
        · rw [if_neg hok] at hres
          subst hres
          have hTeq := gFailT
            (by revert hok; cases (sec.getOrCreate hk e.key a).ok
              <;> simp)
          refine ⟨gFail, gNB, gPow, gLen, ?_, ?_, ?_, ?_, ?_, ?_⟩
          · rw [hTeq]
            exact hsWF
          · rw [hTeq]
            exact hsVS
          · intro k2 h
            rw [hTeq]
            exact h
          · intro h
            unfold CountEQ at h ⊢
            rw [hTeq]
            exact h
          · intro hOk
            exact absurd (gOk hOk) hok
          · intro h
            simp at h

/-! ### `tableWith` facts for the outer transfer loop -/

theorem bucketAt_tableWith {K V : Type} (mn : Table K V) (cur : Nat)
    (bd : List (Entry K V)) (cnt : Nat) (bi : Nat)
    (hcl : cur < mn.buckets.data.length) :
    bucketAt (tableWith mn cur bd cnt) bi =
      if bi = cur then ⟨bd, (bucketAt mn cur).cap⟩ else bucketAt mn bi := by
  unfold bucketAt tableWith
  dsimp only
  by_cases h : bi = cur
  · subst h
    rw [if_pos rfl, getD_set_self _ _ _ _ hcl]
    rfl
  · rw [if_neg h, getD_set_ne _ _ _ _ _ (fun hEq => h hEq.symm)]

theorem TWF_tableWith {K V : Type} [DecidableEq K] (hk : K → Nat)
    (mn : Table K V) (cur : Nat) (bd : List (Entry K V)) (cnt : Nat)
    (hwf : TWF hk mn) (hcur : cur < mn.numBuckets)
    (hplaced : ∀ x ∈ bd, hk x.key % mn.numBuckets = cur)
    (hnodup : (keysOf bd).Nodup) :
    TWF hk (tableWith mn cur bd cnt) := by
  have hcl : cur < mn.buckets.data.length := by
    rw [hwf.blen]
    omega
  refine ⟨?_, hwf.nbpos, ?_, ?_⟩
  · show (mn.buckets.data.set cur _).length = mn.numBuckets
    rw [List.length_set, hwf.blen]
  · intro bi hbi x hx
    rw [bucketAt_tableWith mn cur bd cnt bi hcl] at hx
    by_cases h : bi = cur
    · rw [if_pos h] at hx
      rw [h]
      exact hplaced x hx
    · rw [if_neg h] at hx
      exact hwf.placed bi hbi x hx
  · intro bi hbi
    rw [bucketAt_tableWith mn cur bd cnt bi hcl]
    by_cases h : bi = cur
    · rw [if_pos h]
      exact hnodup
    · rw [if_neg h]
      exact hwf.nodup bi hbi

theorem mapLen_getD {K V : Type} (l : List (Vec (Entry K V))) (i : Nat)
    (h : i < l.length) :
    (l.map (fun b => b.data.length)).getD i 0 =
      (l.getD i Vec.nil).data.length := by
  rw [List.getD_eq_getElem?_getD, List.getElem?_map,
    List.getElem?_eq_getElem h, List.getD_eq_getElem?_getD,
    List.getElem?_eq_getElem h]
  rfl

theorem bucketSum_tableWith {K V : Type} (mn : Table K V) (cur : Nat)
    (bd : List (Entry K V)) (cnt : Nat)
    (hcl : cur < mn.buckets.data.length) :
    bucketSum (tableWith mn cur bd cnt) +
        (bucketAt mn cur).data.length =
      bucketSum mn + bd.length := by
  unfold bucketSum tableWith bucketAt
  dsimp only
  rw [List.map_set]
  have hsum := sum_set_of_lt
    ((mn.buckets.data).map (fun b => b.data.length)) cur bd.length
    (by simpa using hcl)
  rw [mapLen_getD _ _ hcl] at hsum
  exact hsum

theorem getD_le_sum (L : List Nat) (i : Nat) : L.getD i 0 ≤ L.sum := by
  induction L generalizing i with
  | nil => simp [List.getD]
  | cons x xs ih =>
      cases i with
      | zero =>
          rw [List.getD_cons_zero, List.sum_cons]
          omega
      | succ n =>
          rw [List.getD_cons_succ, List.sum_cons]
          have := ih n
          omega

theorem bucketLen_le_bucketSum {K V : Type} (t : Table K V) (i : Nat)
    (h : i < t.buckets.data.length) :
    (bucketAt t i).data.length ≤ bucketSum t := by
  unfold bucketAt bucketSum
  rw [← mapLen_getD _ _ h]
  exact getD_le_sum _ i

theorem bucketSum_eq_zero_of_front {K V : Type} (t : Table K V)
    (c : Nat) (hfe : FrontEmpty t c) (hc : t.buckets.data.length ≤ c) :
    bucketSum t = 0 := by
  unfold bucketSum
  apply List.sum_eq_zero
  intro x hx
  rcases List.mem_map.mp hx with ⟨b, hb, rfl⟩
  obtain ⟨i, hi, hget⟩ := List.getElem_of_mem hb
  have hbat : bucketAt t i = b := by
    unfold bucketAt
    rw [List.getD_eq_getElem?_getD, List.getElem?_eq_getElem hi, hget]
    rfl
  have hempty := hfe i (lt_of_lt_of_le hi hc)
  rw [hbat] at hempty
  simp [hempty]

theorem getB_none_of_bucketSum_zero {K V : Type} [DecidableEq K]
    (hk : K → Nat) (t : Table K V) (q : K) (h : bucketSum t = 0) :
    t.getB hk q = none := by
  unfold Table.getB
  split
  · rfl
  · apply bucketGet_none_of_find
    rw [List.find?_eq_none]
    intro x hx
    exfalso
    by_cases hr : t.bucketIdx hk q < t.buckets.data.length
    · have hle := bucketLen_le_bucketSum t (t.bucketIdx hk q) hr
      unfold bucketAt at hle
      have hlen : 0 <
          (t.buckets.data.getD (t.bucketIdx hk q) Vec.nil).data.length :=
        List.length_pos.mpr (fun hz => by
          rw [hz] at hx
          exact List.not_mem_nil x hx)
      omega
    · rw [List.getD_eq_getElem?_getD, List.getElem?_eq_none (by omega)]
        at hx
      exact List.not_mem_nil x hx

/-! ### The outer transfer loop -/

theorem transferAcross_spec {K V : Type} [DecidableEq K] (hk : K → Nat) :
    ∀ (fuel : Nat) (mn : Table K V) (cursor : Nat) (sec : Table K V)
      (budget : Nat) (a : AllocO)
      (res : Bool × Table K V × Nat × Table K V × AllocO),
      transferAcross hk fuel mn cursor sec budget a = res →
      TWF hk mn → TWF hk sec → ValsSomeT sec →
      StaleInvT hk mn sec →
      mn.numBuckets ≤ cursor + fuel →
      res.2.2.2.2.failAt = a.failAt ∧
      res.2.2.2.1.numBuckets = sec.numBuckets ∧
      res.2.2.2.1.power = sec.power ∧
      res.2.2.2.1.buckets.data.length = sec.buckets.data.length ∧
      TWF hk res.2.2.2.1 ∧ ValsSomeT res.2.2.2.1 ∧
      (∀ k2, hasKeyT hk sec k2 → hasKeyT hk res.2.2.2.1 k2) ∧
      (CountEQ sec → CountEQ res.2.2.2.1) ∧
      res.2.1.numBuckets = mn.numBuckets ∧
      res.2.1.power = mn.power ∧
      res.2.1.buckets.data.length = mn.buckets.data.length ∧
      (a.Ok → res.1 = true) ∧
      (res.1 = true →
        TWF hk res.2.1 ∧
        StaleInvT hk res.2.1 res.2.2.2.1 ∧
        (∀ q, chain hk res.2.1 res.2.2.2.1 q = chain hk mn sec q) ∧
        (CountLE mn → CountLE res.2.1) ∧
        (FrontEmpty mn cursor → FrontEmpty res.2.1 res.2.2.1) ∧
        (CountEQ mn → CountEQ res.2.1) ∧
        (CountEQ mn → FrontEmpty mn cursor →
          res.2.1.totalEntries =
            mn.totalEntries - min budget mn.totalEntries)) := by
  intro fuel
  induction fuel with
  | zero =>
      intro mn cursor sec budget a res hres hmnWF hsWF hsVS hstale hfuel
      unfold transferAcross at hres
      subst hres
      refine ⟨rfl, rfl, rfl, rfl, hsWF, hsVS, fun _ h => h, fun h => h,
        rfl, rfl, rfl, fun _ => rfl, ?_⟩
      intro _
      refine ⟨hmnWF, hstale, fun q => rfl, fun h => h, fun h => h,
        fun h => h, ?_⟩
      intro hceq hfe
      have hz : bucketSum mn = 0 :=
        bucketSum_eq_zero_of_front mn cursor hfe
          (by rw [hmnWF.blen]; omega)
      unfold CountEQ at hceq
      show mn.totalEntries = mn.totalEntries - min budget mn.totalEntries
      omega
  | succ fuel ih =>
      intro mn cursor sec budget a res hres hmnWF hsWF hsVS hstale hfuel
      unfold transferAcross at hres
      by_cases hcl : cursor < mn.numBuckets
      · rw [if_pos hcl] at hres
        dsimp only at hres
        have hclen : cursor < mn.buckets.data.length := by
          rw [hmnWF.blen]
          omega
        set r := transferFromBucket hk
          (mn.buckets.data.getD cursor Vec.nil).data.reverse sec budget
          mn.totalEntries a with hrdef
        obtain ⟨iFail, iNB, iPow, iLen, iWF, iVS, iMono, iCnt, iOk,
            iRest⟩ :=
          transferFromBucket_spec hk mn cursor hmnWF hcl
            (mn.buckets.data.getD cursor Vec.nil).data.reverse sec
            budget mn.totalEntries a r hrdef.symm
            (fun x hx => hmnWF.placed cursor hcl x
              (List.mem_reverse.mp hx))
            (by rw [List.reverse_reverse]
                exact hmnWF.nodup cursor hcl)
            hsWF hsVS
            (fun x hx hv =>
              hstale cursor x (List.mem_reverse.mp hx) hv)
        by_cases hok : r.ok = true
        · rw [if_pos hok] at hres
          obtain ⟨iDrop, iBud, iCnt2, iChain⟩ := iRest hok
          simp only [List.length_reverse] at iBud iCnt2
          have hbridge : bucketAt mn cursor =
              mn.buckets.data.getD cursor Vec.nil := rfl
          have hL := bucketLen_le_bucketSum mn cursor hclen
          rw [hbridge] at hL
          have hsumtw := bucketSum_tableWith mn cursor
            r.bucketRev.reverse r.count hclen
          rw [hbridge] at hsumtw
          simp only [List.length_reverse] at hsumtw
          have hbrlen : r.bucketRev.length =
              (mn.buckets.data.getD cursor Vec.nil).data.length -
                min budget
                  (mn.buckets.data.getD cursor Vec.nil).data.length := by
            rw [iDrop, List.length_drop, List.length_reverse]
          have hsub : ∀ x ∈ r.bucketRev.reverse,
              x ∈ (mn.buckets.data.getD cursor Vec.nil).data := by
            intro x hx
            have hx1 := List.mem_reverse.mp hx
            rw [iDrop] at hx1
            exact List.mem_reverse.mp (List.drop_subset _ _ hx1)
          have hsl : r.bucketRev.reverse.Sublist
              (mn.buckets.data.getD cursor Vec.nil).data := by
            rw [iDrop]
            have h2 := (List.drop_sublist
              (min budget (mn.buckets.data.getD cursor
                Vec.nil).data.reverse.length)
              (mn.buckets.data.getD cursor
                Vec.nil).data.reverse).reverse
            rwa [List.reverse_reverse] at h2
          have hTWF2 : TWF hk
              (tableWith mn cursor r.bucketRev.reverse r.count) := by
            apply TWF_tableWith hk mn cursor _ _ hmnWF hcl
            · exact fun x hx => hmnWF.placed cursor hcl x (hsub x hx)
            · have hnd := hmnWF.nodup cursor hcl
              unfold keysOf at hnd ⊢
              exact List.Nodup.sublist
                (List.Sublist.map (fun e => e.key) hsl) hnd
          have hStale2 : StaleInvT hk
              (tableWith mn cursor r.bucketRev.reverse r.count)
              r.sec := by
            intro bi x hx hv
            rw [bucketAt_tableWith mn cursor _ _ bi hclen] at hx
            by_cases hb : bi = cursor
            · rw [if_pos hb] at hx
              exact iMono _ (hstale cursor x (hsub x hx) hv)
            · rw [if_neg hb] at hx
              exact iMono _ (hstale bi x hx hv)
          have hChain2 : ∀ q, chain hk
              (tableWith mn cursor r.bucketRev.reverse r.count)
              r.sec q = chain hk mn sec q := by
            intro q
            have h1 := iChain q r.count mn.totalEntries
            rw [List.reverse_reverse] at h1
            refine h1.trans
              (chain_ext hk (tableWith mn cursor
                (mn.buckets.data.getD cursor Vec.nil).data
                mn.totalEntries) mn sec sec
                (set_getD_self _ _ _ hclen) rfl rfl rfl q)
          have hCountLE : CountLE mn → CountLE
              (tableWith mn cursor r.bucketRev.reverse r.count) := by
            intro h
            unfold CountLE at h ⊢
            show bucketSum _ ≤ r.count
            omega
          have hCountEQ : CountEQ mn → CountEQ
              (tableWith mn cursor r.bucketRev.reverse r.count) := by
            intro h
            unfold CountEQ at h ⊢
            show bucketSum _ = r.count
            omega
          by_cases hemp : r.bucketRev.isEmpty = true
          · rw [if_pos hemp] at hres
            have hempn : r.bucketRev = [] := by
              revert hemp
              cases r.bucketRev <;> simp
            have hbr0 : r.bucketRev.length = 0 := by
              rw [hempn]
              rfl
            have hFE2 : FrontEmpty mn cursor →
                FrontEmpty (tableWith mn cursor r.bucketRev.reverse
                  r.count) (cursor + 1) := by
              intro h bi hbi
              rw [bucketAt_tableWith mn cursor _ _ bi hclen]
              by_cases hb : bi = cursor
              · rw [if_pos hb]
                show r.bucketRev.reverse = []
                rw [hempn]
                rfl
              · rw [if_neg hb]
                exact h bi (by omega)
            obtain ⟨jFail, jNB, jPow, jLen, jWF, jVS, jMono, jCnt,
                jMnNB, jMnPow, jMnLen, jOk, jTrue⟩ :=
              ih _ (cursor + 1) r.sec r.budget r.a res hres hTWF2
                iWF iVS hStale2
                (by show mn.numBuckets ≤ cursor + 1 + fuel; omega)
            refine ⟨jFail.trans iFail, jNB.trans iNB,
              jPow.trans iPow, jLen.trans iLen, jWF, jVS,
              fun k2 h => jMono k2 (iMono k2 h),
              fun h => jCnt (iCnt h), jMnNB, jMnPow, ?_,
              fun h => jOk (Ok_of_failAt_eq h iFail), ?_⟩
            · rw [jMnLen]
              show (mn.buckets.data.set cursor _).length = _
              simp
            · intro htrue
              obtain ⟨kWF, kStale, kChain, kLE, kFE, kEQ, kCnt⟩ :=
                jTrue htrue
              refine ⟨kWF, kStale,
                fun q => (kChain q).trans (hChain2 q),
                fun h => kLE (hCountLE h),
                fun h => kFE (hFE2 h),
                fun h => kEQ (hCountEQ h), ?_⟩
              intro hceq hfe
              have hres_tot := kCnt (hCountEQ hceq) (hFE2 hfe)
              dsimp only at hres_tot
              unfold CountEQ at hceq
              rw [hres_tot, iCnt2, iBud]
              omega
          · rw [if_neg hemp] at hres
            subst hres
            have hne : r.bucketRev.length ≠ 0 := by
              revert hemp
              cases r.bucketRev <;> simp
            refine ⟨iFail, iNB, iPow, iLen, iWF, iVS, iMono, iCnt,
              rfl, rfl, ?_, fun _ => rfl, ?_⟩
            · show (mn.buckets.data.set cursor _).length = _
              simp
            · intro _
              refine ⟨hTWF2, hStale2, hChain2, hCountLE, ?_,
                hCountEQ, ?_⟩
              · intro h bi hbi
                replace hbi : bi < cursor := hbi
                show (bucketAt (tableWith mn cursor
                  r.bucketRev.reverse r.count) bi).data = []
                rw [bucketAt_tableWith mn cursor _ _ bi hclen,
                  if_neg (by omega)]
                exact h bi hbi
              · intro hceq hfe
                unfold CountEQ at hceq
                show r.count = _
                rw [iCnt2]
                omega
        · rw [if_neg hok] at hres
          subst hres
          refine ⟨iFail, iNB, iPow, iLen, iWF, iVS, iMono, iCnt,
            rfl, rfl, ?_, ?_, ?_⟩
          · show (mn.buckets.data.set cursor _).length = _
            simp
          · intro hOk
            exact absurd (iOk hOk) hok
          · intro h
            simp at h
      · rw [if_neg hcl] at hres
        subst hres
        refine ⟨rfl, rfl, rfl, rfl, hsWF, hsVS, fun _ h => h,
          fun h => h, rfl, rfl, rfl, fun _ => rfl, ?_⟩
        intro _
        refine ⟨hmnWF, hstale, fun q => rfl, fun h => h, fun h => h,
          fun h => h, ?_⟩
        intro hceq hfe
        have hz : bucketSum mn = 0 :=
          bucketSum_eq_zero_of_front mn cursor hfe
            (by rw [hmnWF.blen]; omega)
        unfold CountEQ at hceq
        show mn.totalEntries = mn.totalEntries - min budget mn.totalEntries
        omega

/-! ### Data-equality transport and found-entry facts -/

theorem findIdx_found {K V : Type} [DecidableEq K]
    (l : List (Entry K V)) (k : K) (i : Nat)
    (h : l.findIdx? (fun x => decide (x.key = k)) = some i) :
    ∃ e, l[i]? = some e ∧ e.key = k := by
  obtain ⟨hi, hp, _⟩ := List.findIdx?_eq_some_iff_getElem.mp h
  refine ⟨l.get ⟨i, hi⟩, ?_, ?_⟩
  · rw [List.getElem?_eq_getElem hi]
    rfl
  · simpa using hp

theorem TWF_ext {K V : Type} [DecidableEq K] (hk : K → Nat)
    (t1 t2 : Table K V) (hb : t1.buckets.data = t2.buckets.data)
    (hn : t1.numBuckets = t2.numBuckets) (h : TWF hk t2) : TWF hk t1 := by
  have hbat : ∀ bi, bucketAt t1 bi = bucketAt t2 bi := by
    intro bi
    unfold bucketAt
    rw [hb]
  refine ⟨?_, ?_, ?_, ?_⟩
  · rw [hb, hn]
    exact h.blen
  · rw [hn]
    exact h.nbpos
  · intro bi hbi x hx
    rw [hn] at hbi ⊢
    rw [hbat bi] at hx
    exact h.placed bi hbi x hx
  · intro bi hbi
    rw [hn] at hbi
    rw [hbat bi]
    exact h.nodup bi hbi

theorem ValsSomeT_ext {K V : Type} (t1 t2 : Table K V)
    (hb : t1.buckets.data = t2.buckets.data) (h : ValsSomeT t2) :
    ValsSomeT t1 := by
  intro bi x hx
  unfold bucketAt at hx
  rw [hb] at hx
  exact h bi x hx

theorem hasKeyT_ext {K V : Type} [DecidableEq K] (hk : K → Nat)
    (t1 t2 : Table K V) (hb : t1.buckets.data = t2.buckets.data)
    (hn : t1.numBuckets = t2.numBuckets) (k : K)
    (h : hasKeyT hk t2 k) : hasKeyT hk t1 k := by
  obtain ⟨x, hx, hxk⟩ := h
  refine ⟨x, ?_, hxk⟩
  unfold bucketAt Table.bucketIdx at hx ⊢
  rw [hb, hn]
  exact hx

theorem StaleInvT_ext {K V : Type} [DecidableEq K] (hk : K → Nat)
    (mn1 mn2 sec1 sec2 : Table K V)
    (hmb : mn1.buckets.data = mn2.buckets.data)
    (hsb : sec1.buckets.data = sec2.buckets.data)
    (hsn : sec1.numBuckets = sec2.numBuckets)
    (h : StaleInvT hk mn2 sec2) : StaleInvT hk mn1 sec1 := by
  intro bi x hx hv
  unfold bucketAt at hx
  rw [hmb] at hx
  exact hasKeyT_ext hk sec1 sec2 hsb hsn x.key (h bi x hx hv)

theorem CountLE_ext {K V : Type} (t1 t2 : Table K V)
    (hb : t1.buckets.data = t2.buckets.data)
    (ht : t1.totalEntries = t2.totalEntries) (h : CountLE t2) :
    CountLE t1 := by
  unfold CountLE bucketSum at h ⊢
  rw [hb, ht]
  exact h

theorem chain_collapse {K V : Type} [DecidableEq K] (hk : K → Nat)
    (mn sec : Table K V) (q : K) (h : bucketSum mn = 0) :
    chain hk mn sec q = sec.getB hk q := by
  unfold chain
  cases hg : sec.getB hk q with
  | some v => rfl
  | none => exact getB_none_of_bucketSum_zero hk mn q h

/-! ### `getOrCreate` returns a valid entry position -/

theorem getOrCreate_entry {K V : Type} [DecidableEq K] (hk : K → Nat)
    (t : Table K V) (k : K) (a : AllocO) (hnb : 0 < t.numBuckets)
    (hblen : t.buckets.data.length = t.numBuckets)
    (hok : (t.getOrCreate hk k a).ok = true) :
    ∃ e, (t.getOrCreate hk k a).t.entryAt? (t.getOrCreate hk k a).bIdx
        (t.getOrCreate hk k a).eIdx = some e ∧ e.key = k ∧
      ((t.getOrCreate hk k a).created = true → e = ⟨k, none⟩) ∧
      ((t.getOrCreate hk k a).created = false →
        e ∈ (bucketAt t (t.bucketIdx hk k)).data) := by
  have hbi : t.bucketIdx hk k < t.buckets.data.length := by
    rw [hblen]
    exact Nat.mod_lt _ hnb
  unfold Table.getOrCreate
  rw [if_neg (by omega)]
  dsimp only
  unfold bucketGetOrCreate
  cases hidx : bucketFindIdx
      (t.buckets.data.getD (t.bucketIdx hk k) Vec.nil) k with
  | some i =>
      dsimp only
      unfold bucketFindIdx at hidx
      obtain ⟨e0, hfound, hkey⟩ := findIdx_found _ _ _ hidx
      refine ⟨e0, ?_, hkey, ?_, ?_⟩
      · unfold Table.entryAt?
        dsimp only
        rw [getD_set_self _ _ _ _ hbi]
        exact hfound
      · intro h
        simp at h
      · intro _
        exact List.getElem?_mem hfound
  | none =>
      dsimp only
      by_cases hpb : ((t.buckets.data.getD (t.bucketIdx hk k)
          Vec.nil).pushBack ⟨k, none⟩ a).1 = true
      · rw [if_pos hpb]
        dsimp only
        have hdata := (pushBack_spec (t.buckets.data.getD
          (t.bucketIdx hk k) Vec.nil) ⟨k, none⟩ a).1 hpb
        refine ⟨⟨k, none⟩, ?_, rfl, fun _ => rfl, ?_⟩
        · unfold Table.entryAt?
          dsimp only
          rw [getD_set_self _ _ _ _ hbi, hdata]
          have hlen : (t.buckets.data.getD (t.bucketIdx hk k)
              Vec.nil).data.length + 1 - 1 =
              (t.buckets.data.getD (t.bucketIdx hk k)
                Vec.nil).data.length := by omega
          rw [List.length_append]
          show ((t.buckets.data.getD (t.bucketIdx hk k)
            Vec.nil).data ++ [(⟨k, none⟩ : Entry K V)])[
              (t.buckets.data.getD (t.bucketIdx hk k)
                Vec.nil).data.length + 1 - 1]? = _
          rw [hlen]
          exact List.getElem?_concat_length _ _
        · intro h
          simp at h
      · exfalso
        have hfalse : (t.getOrCreate hk k a).ok = false := by
          unfold Table.getOrCreate
          rw [if_neg (by omega)]
          dsimp only
          unfold bucketGetOrCreate
          rw [hidx]
          dsimp only
          rw [if_neg hpb]
        rw [hok] at hfalse
        simp at hfalse

/-! ### `bucketRemove` of a freshly created entry -/

theorem bucketRemove_concat {K V : Type} [DecidableEq K]
    (bd : List (Entry K V)) (k : K) (v0 : Option V) (c : Nat)
    (h : ∀ x ∈ bd, ¬ x.key = k) :
    bucketRemove ⟨bd ++ [⟨k, v0⟩], c⟩ k = (true, ⟨bd, c⟩) := by
  unfold bucketRemove bucketFindIdx
  have hfi : (bd ++ [(⟨k, v0⟩ : Entry K V)]).findIdx?
      (fun e => decide (e.key = k)) = some bd.length := by
    have h2 := findIdx_concat_self bd ⟨k, v0⟩ (by simpa using h)
    simpa using h2
  show (match (bd ++ [(⟨k, v0⟩ : Entry K V)]).findIdx?
    (fun e => decide (e.key = k)) with
    | none => (false, (⟨bd ++ [(⟨k, v0⟩ : Entry K V)], c⟩ :
        Vec (Entry K V)))
    | some i =>
        (true, (⟨(bd ++ [(⟨k, v0⟩ : Entry K V)]).set i ⟨k, none⟩, c⟩ :
          Vec (Entry K V)).removeFast i)) = _
  rw [hfi]
  dsimp only
  rw [set_concat_last]
  unfold Vec.removeFast
  rw [if_pos (by simp)]
  dsimp only
  rw [List.getLast?_concat]
  dsimp only
  rw [set_concat_last, List.dropLast_concat]

/-! ### Fresh tables -/

theorem pushBuckets_spec {K V : Type} :
    ∀ (n : Nat) (v : Vec (Vec (Entry K V))) (cnt : Nat) (a : AllocO),
      ∃ m, (pushBuckets n v cnt a).1 = cnt + m ∧
        (pushBuckets n v cnt a).2.1.data =
          v.data ++ List.replicate m Vec.nil ∧
        (pushBuckets n v cnt a).2.2.failAt = a.failAt ∧
        (a.Ok → m = n) := by
  intro n
  induction n with
  | zero =>
      intro v cnt a
      exact ⟨0, rfl,
        by show v.data = v.data ++ List.replicate 0 Vec.nil; simp,
        rfl, fun _ => rfl⟩
  | succ n ihn =>
      intro v cnt a
      unfold pushBuckets
      dsimp only
      by_cases hpb : (v.pushBack Vec.nil a).1 = true
      · rw [if_pos hpb]
        obtain ⟨m, h1, h2, h3, h4⟩ := ihn (v.pushBack Vec.nil a).2.1
          (cnt + 1) (v.pushBack Vec.nil a).2.2
        have hdata := (pushBack_spec v Vec.nil a).1 hpb
        have hfail := (pushBack_spec v Vec.nil a).2
        refine ⟨m + 1, by omega, ?_, h3.trans hfail, ?_⟩
        · rw [h2, hdata, List.append_assoc]
          congr 1
        · intro hOk
          have := h4 (Ok_of_failAt_eq hOk hfail)
          omega
      · rw [if_neg hpb]
        refine ⟨0, rfl,
          by show v.data = v.data ++ List.replicate 0 Vec.nil; simp,
          (pushBack_spec v Vec.nil a).2, ?_⟩
        intro hOk
        exact absurd (pushBack_ok1 v Vec.nil hOk) hpb

theorem bucketAt_empty_of_sum_zero {K V : Type} (t : Table K V)
    (h : bucketSum t = 0) (bi : Nat) : (bucketAt t bi).data = [] := by
  by_cases hr : bi < t.buckets.data.length
  · have hle := bucketLen_le_bucketSum t bi hr
    rw [← List.length_eq_zero]
    omega
  · unfold bucketAt
    rw [List.getD_eq_getElem?_getD, List.getElem?_eq_none (by omega)]
    rfl

theorem tableNew_spec (K V : Type) (p0 : Nat) (a : AllocO) :
    (Table.new K V p0 a).2.failAt = a.failAt ∧
    (Table.new K V p0 a).1.totalEntries = 0 ∧
    (Table.new K V p0 a).1.power =
      (if (if 32 ≤ p0 then 31 else p0) < 4 then 4
        else (if 32 ≤ p0 then 31 else p0)) ∧
    (Table.new K V p0 a).1.buckets.data.length =
      (Table.new K V p0 a).1.numBuckets ∧
    bucketSum (Table.new K V p0 a).1 = 0 ∧
    (a.Ok → (Table.new K V p0 a).1.numBuckets =
      getPrimePowerOf2 (if (if 32 ≤ p0 then 31 else p0) < 4 then 4
        else (if 32 ≤ p0 then 31 else p0))) := by
  unfold Table.new
  dsimp only
  obtain ⟨m, h1, h2, h3, h4⟩ := pushBuckets_spec
    (getPrimePowerOf2 (if (if 32 ≤ p0 then 31 else p0) < 4 then 4
      else (if 32 ≤ p0 then 31 else p0)))
    (Vec.reserve Vec.nil
      (getPrimePowerOf2 (if (if 32 ≤ p0 then 31 else p0) < 4 then 4
        else (if 32 ≤ p0 then 31 else p0))) a).2.1 0
    (Vec.reserve Vec.nil
      (getPrimePowerOf2 (if (if 32 ≤ p0 then 31 else p0) < 4 then 4
        else (if 32 ≤ p0 then 31 else p0))) a).2.2
  refine ⟨h3.trans (reserve_failAt _ _ _), rfl, rfl, ?_, ?_, ?_⟩
  · show (pushBuckets _ _ 0 _).2.1.data.length = (pushBuckets _ _ 0 _).1
    rw [h2, h1, reserve_data]
    simp [Vec.nil]
  · show ((pushBuckets _ _ 0 _).2.1.data.map
      (fun b => b.data.length)).sum = 0
    rw [h2, reserve_data]
    simp [List.map_replicate, Vec.nil]
  · intro hOk
    show (pushBuckets _ _ 0 _).1 = _
    rw [h1, h4 (Ok_of_failAt_eq hOk (reserve_failAt _ _ _))]
    omega

theorem tableNew_TWF {K V : Type} [DecidableEq K] (hk : K → Nat)
    (p0 : Nat) (a : AllocO)
    (hpos : 0 < (Table.new K V p0 a).1.numBuckets) :
    TWF hk (Table.new K V p0 a).1 := by
  obtain ⟨_, _, _, hblen, hsum, _⟩ := tableNew_spec K V p0 a
  refine ⟨hblen, hpos, ?_, ?_⟩
  · intro bi hbi x hx
    rw [bucketAt_empty_of_sum_zero _ hsum bi] at hx
    cases hx
  · intro bi hbi
    rw [bucketAt_empty_of_sum_zero _ hsum bi]
    exact List.nodup_nil

theorem tableNew_ValsSome {K V : Type} (p0 : Nat) (a : AllocO) :
    ValsSomeT (Table.new K V p0 a).1 := by
  obtain ⟨_, _, _, _, hsum, _⟩ := tableNew_spec K V p0 a
  intro bi x hx
  rw [bucketAt_empty_of_sum_zero _ hsum bi] at hx
  cases hx

theorem prime_pos : ∀ i < 32, 0 < getPrimePowerOf2 i := by decide

/-! ### Data-wise bucket equality -/

theorem bucketAt_set_same_data {K V : Type} (t t2 : Table K V) (bi : Nat)
    (c : Nat)
    (hb : t2.buckets.data =
      t.buckets.data.set bi ⟨(bucketAt t bi).data, c⟩)
    (hbi : bi < t.buckets.data.length) :
    ∀ bj, (bucketAt t2 bj).data = (bucketAt t bj).data := by
  intro bj
  unfold bucketAt
  rw [hb]
  by_cases h : bj = bi
  · subst h
    rw [getD_set_self _ _ _ _ hbi]
    rfl
  · rw [getD_set_ne _ _ _ _ _ (fun hEq => h hEq.symm)]

theorem getB_DW {K V : Type} [DecidableEq K] (hk : K → Nat)
    (t1 t2 : Table K V)
    (hd : ∀ bj, (bucketAt t1 bj).data = (bucketAt t2 bj).data)
    (hn : t1.numBuckets = t2.numBuckets) (q : K) :
    t1.getB hk q = t2.getB hk q := by
  unfold Table.getB Table.bucketIdx
  rw [hn]
  by_cases hz : t2.numBuckets = 0
  · rw [if_pos hz, if_pos hz]
  · rw [if_neg hz, if_neg hz]
    unfold bucketGet
    have := hd (hk q % t2.numBuckets)
    unfold bucketAt at this
    rw [this]

theorem TWF_DW {K V : Type} [DecidableEq K] (hk : K → Nat)
    (t1 t2 : Table K V)
    (hd : ∀ bj, (bucketAt t1 bj).data = (bucketAt t2 bj).data)
    (hn : t1.numBuckets = t2.numBuckets)
    (hlen : t1.buckets.data.length = t2.buckets.data.length)
    (h : TWF hk t2) : TWF hk t1 := by
  refine ⟨?_, ?_, ?_, ?_⟩
  · rw [hlen, hn]
    exact h.blen
  · rw [hn]
    exact h.nbpos
  · intro bi hbi x hx
    rw [hn] at hbi ⊢
    rw [hd bi] at hx
    exact h.placed bi hbi x hx
  · intro bi hbi
    rw [hn] at hbi
    unfold keysOf
    rw [hd bi]
    exact h.nodup bi hbi

theorem ValsSome_DW {K V : Type} (t1 t2 : Table K V)
    (hd : ∀ bj, (bucketAt t1 bj).data = (bucketAt t2 bj).data)
    (h : ValsSomeT t2) : ValsSomeT t1 := by
  intro bi x hx
  rw [hd bi] at hx
  exact h bi x hx

theorem hasKey_DW {K V : Type} [DecidableEq K] (hk : K → Nat)
    (t1 t2 : Table K V)
    (hd : ∀ bj, (bucketAt t1 bj).data = (bucketAt t2 bj).data)
    (hn : t1.numBuckets = t2.numBuckets) (k : K)
    (h : hasKeyT hk t2 k) : hasKeyT hk t1 k := by
  obtain ⟨x, hx, hxk⟩ := h
  refine ⟨x, ?_, hxk⟩
  unfold Table.bucketIdx
  rw [hn, hd]
  exact hx

theorem bucketSum_DW {K V : Type} (t1 t2 : Table K V)
    (hd : ∀ bj, (bucketAt t1 bj).data = (bucketAt t2 bj).data)
    (hlen : t1.buckets.data.length = t2.buckets.data.length) :
    bucketSum t1 = bucketSum t2 := by
  unfold bucketSum
  congr 1
  apply List.ext_getElem
  · simp [hlen]
  · intro i h1 h2
    simp only [List.getElem_map]
    have hdi := hd i
    unfold bucketAt at hdi
    rw [List.getD_eq_getElem?_getD, List.getD_eq_getElem?_getD,
      List.getElem?_eq_getElem (by simpa using h1),
      List.getElem?_eq_getElem (by simpa using h2)] at hdi
    simp only [Option.getD_some] at hdi
    rw [hdi]

/-! ### `getEntryIdx?` characterization -/

theorem getEntryIdx_found {K V : Type} [DecidableEq K] (hk : K → Nat)
    (t : Table K V) (k : K) (mpos : Nat × Nat)
    (h : t.getEntryIdx? hk k = some mpos) :
    mpos.1 = t.bucketIdx hk k ∧
    ∃ me, t.entryAt? mpos.1 mpos.2 = some me ∧ me.key = k ∧
      me ∈ (bucketAt t (t.bucketIdx hk k)).data := by
  unfold Table.getEntryIdx? at h
  by_cases hz : t.numBuckets = 0
  · rw [if_pos hz] at h
    cases h
  · rw [if_neg hz] at h
    dsimp only at h
    unfold bucketFindIdx at h
    cases hidx : (t.buckets.data.getD (t.bucketIdx hk k)
        Vec.nil).data.findIdx? (fun e => decide (e.key = k)) with
    | none =>
        rw [hidx] at h
        cases h
    | some i =>
        rw [hidx] at h
        dsimp only at h
        obtain ⟨e0, hfound, hkey⟩ := findIdx_found _ _ _ hidx
        injection h with hpos
        subst hpos
        refine ⟨rfl, e0, ?_, hkey, List.getElem?_mem hfound⟩
        unfold Table.entryAt?
        exact hfound

/-! ### `beginResize` characterization -/

theorem beginResize_spec {K V : Type} (m1 : UMap K V) (np : Nat)
    (s : AllocO) :
    ((m1.beginResize np s).1 = true →
      ∃ ts, (m1.beginResize np s).2.1 =
          { m1 with
              secondary := some ts
              state := MState.transfer
              cursor := 0 } ∧
        bucketSum ts = 0 ∧ ts.totalEntries = 0 ∧
        ts.numBuckets = getPrimePowerOf2 np ∧
        ts.buckets.data.length = ts.numBuckets ∧
        ts.power = (if (if 32 ≤ np then 31 else np) < 4 then 4
          else (if 32 ≤ np then 31 else np))) ∧
    ((m1.beginResize np s).1 = false →
      (m1.beginResize np s).2.1 = m1) ∧
    (m1.beginResize np s).2.2.failAt = s.failAt ∧
    (s.Ok → 4 ≤ np → np ≤ 31 → (m1.beginResize np s).1 = true) := by
  unfold UMap.beginResize
  dsimp only
  by_cases ha : s.alloc.1 = true
  · rw [if_pos ha]
    obtain ⟨hfail, htot, hpow, hblen, hsum, hnb⟩ :=
      tableNew_spec K V np s.alloc.2
    by_cases hp : getPrimePowerOf2 np =
        (Table.new K V np s.alloc.2).1.numBuckets
    · rw [if_pos hp]
      refine ⟨fun _ => ⟨(Table.new K V np s.alloc.2).1, rfl, hsum,
        htot, hp.symm, hblen, hpow⟩, ?_, ?_, fun _ _ _ => rfl⟩
      · intro h
        simp at h
      · exact hfail.trans (alloc_failAt s)
    · rw [if_neg hp]
      refine ⟨fun h => by simp at h, fun _ => rfl,
        hfail.trans (alloc_failAt s), ?_⟩
      intro hOk h4 h31
      exfalso
      apply hp
      rw [hnb (Ok_of_failAt_eq hOk (alloc_failAt s))]
      have hcl : (if (if 32 ≤ np then 31 else np) < 4 then 4
          else (if 32 ≤ np then 31 else np)) = np := by
        rw [if_neg (show ¬ 32 ≤ np by omega)]
        rw [if_neg (show ¬ np < 4 by omega)]
      rw [hcl]
  · rw [if_neg ha]
    refine ⟨fun h => by simp at h, fun _ => rfl, alloc_failAt s, ?_⟩
    intro hOk _ _
    exact absurd (alloc_ok1 hOk) ha

/-! ### `transferChunk` preserves the lookup chain -/

theorem transferChunk_lookup {K V : Type} [DecidableEq K] (hk : K → Nat)
    (m1 : UMap K V) (tm sec2 ts : Table K V) (s : AllocO)
    (hmain : m1.main = some tm) (hsec : m1.secondary = some sec2)
    (hstT : m1.state = MState.transfer)
    (hTWFm : TWF hk tm) (hTWFts : TWF hk ts) (hVSts : ValsSomeT ts)
    (hStalets : StaleInvT hk tm ts) (hCLE : CountLE tm)
    (hd : ∀ bj, (bucketAt sec2 bj).data = (bucketAt ts bj).data)
    (hn : sec2.numBuckets = ts.numBuckets)
    (hlen : sec2.buckets.data.length = ts.buckets.data.length)
    (hok : (m1.transferChunk hk s).1 = true) :
    ∀ q, (if (m1.transferChunk hk s).2.1.transferDone = true then
        (m1.transferChunk hk s).2.1.endResize
      else (m1.transferChunk hk s).2.1).lookup hk q =
      chain hk tm ts q := by
  have hTWFs : TWF hk sec2 := TWF_DW hk sec2 ts hd hn hlen hTWFts
  have hVS : ValsSomeT sec2 := ValsSome_DW sec2 ts hd hVSts
  have hStale : StaleInvT hk tm sec2 := fun bi x hx hv =>
    hasKey_DW hk sec2 ts hd hn x.key (hStalets bi x hx hv)
  have hchainDW : ∀ q2, chain hk tm sec2 q2 = chain hk tm ts q2 := by
    intro q2
    unfold chain
    rw [getB_DW hk sec2 ts hd hn q2]
  intro q
  rw [← hchainDW q]
  unfold UMap.transferChunk at hok ⊢
  rw [hmain, hsec] at hok ⊢
  dsimp only at hok ⊢
  obtain ⟨jFail, jNB, jPow, jLen, jWF, jVS, jMono, jCnt, jMnNB,
      jMnPow, jMnLen, jOk, jTrue⟩ :=
    transferAcross_spec hk (tm.numBuckets + 1) tm m1.cursor sec2 512 s
      (transferAcross hk (tm.numBuckets + 1) tm m1.cursor sec2 512 s)
      rfl hTWFm hTWFs hVS hStale (by omega)
  obtain ⟨kWF, kStale, kChain, kLE, kFE, kEQ, kCnt⟩ := jTrue hok
  unfold UMap.transferDone UMap.mainT
  dsimp only
  simp only [Option.getD_some]
  by_cases hdone : (transferAcross hk (tm.numBuckets + 1) tm m1.cursor
      sec2 512 s).2.1.totalEntries = 0
  · rw [if_pos (show _ = true from decide_eq_true hdone)]
    unfold UMap.endResize UMap.lookup
    dsimp only
    have hz : bucketSum (transferAcross hk (tm.numBuckets + 1) tm
        m1.cursor sec2 512 s).2.1 = 0 := by
      have hle := kLE hCLE
      unfold CountLE at hle
      omega
    rw [← kChain q]
    exact (chain_collapse hk _ _ q hz).symm
  · rw [if_neg (show ¬ _ = true by simpa using hdone)]
    unfold UMap.lookup
    dsimp only
    rw [hstT]
    exact kChain q

/-! ### `put` failure atomicity -/

/-- C10: on a well-formed map, a `put` that returns `false` while
leaving the map outside the ERROR state does not change the observable
key-value mapping: every key still reads the value it read before. -/
theorem put_failure_atomic {K V : Type} [DecidableEq K] (hk : K → Nat)
    (m : UMap K V) (k : K) (v : V) (a : AllocO)
    (res : Bool × UMap K V × AllocO)
    (hres : m.put hk k v a = res)
    (hwf : MapWF hk m)
    (hput : res.1 = false)
    (hstate : res.2.1.state ≠ MState.error) :
    ∀ q, res.2.1.lookup hk q = m.lookup hk q := by
  intro q
  cases hm : m.state with
  | error =>
      unfold UMap.put at hres
      rw [hm] at hres
      dsimp only at hres
      subst hres
      exact absurd hm hstate
  | stable =>
      unfold MapWF at hwf
      rw [hm] at hwf
      obtain ⟨t, hmain, hsecn, hTWF, hVS, hCLE⟩ := hwf
      have hmt : m.mainT = t := by
        unfold UMap.mainT
        rw [hmain]
        rfl
      have hbil : t.bucketIdx hk k < t.buckets.data.length := by
        rw [hTWF.blen]
        exact Nat.mod_lt _ hTWF.nbpos
      unfold UMap.put at hres
      rw [hm] at hres
      dsimp only at hres
      rw [hmt] at hres
      obtain ⟨gFail, gNB, gPow, gLen, gOk, gCreated, gFound, gFailT⟩ :=
        getOrCreate_spec hk t k a hTWF.nbpos hTWF.blen
      by_cases hok : (t.getOrCreate hk k a).ok = true
      · rw [if_pos hok] at hres
        obtain ⟨e, hEntry, hEkey, hEcr, hEncr⟩ :=
          getOrCreate_entry hk t k a hTWF.nbpos hTWF.blen hok
        rw [hEntry] at hres
        dsimp only at hres
        cases hval : e.val with
        | some w =>
            rw [show entryConstruct e v (t.getOrCreate hk k a).a =
              (true, ⟨e.key, some v⟩, (t.getOrCreate hk k a).a) from by
                unfold entryConstruct
                rw [hval]] at hres
            dsimp only at hres
            rw [if_pos rfl] at hres
            split at hres
            · split at hres
              · exfalso
                rw [← hres] at hput
                simp at hput
              · exfalso
                apply hstate
                rw [← hres]
            · exfalso
              rw [← hres] at hput
              simp at hput
        | none =>
            by_cases hcr : (t.getOrCreate hk k a).created = true
            · obtain ⟨hbIdx, heIdx, hfind, ⟨c0, hdata⟩, htot⟩ :=
                gCreated hok hcr
              have hnotin : ∀ x ∈ (bucketAt t (t.bucketIdx hk k)).data,
                  ¬ x.key = k := by
                rw [List.find?_eq_none] at hfind
                intro x hx hxk
                exact hfind x hx (by simpa using hxk)
              cases hal : (t.getOrCreate hk k a).a.alloc.1 with
              | true =>
                  rw [show entryConstruct e v (t.getOrCreate hk k a).a =
                    (true, ⟨e.key, some v⟩,
                      (t.getOrCreate hk k a).a.alloc.2) from by
                      unfold entryConstruct
                      rw [hval]
                      dsimp only
                      rw [if_pos hal]] at hres
                  dsimp only at hres
                  rw [if_pos rfl] at hres
                  split at hres
                  · split at hres
                    · exfalso
                      rw [← hres] at hput
                      simp at hput
                    · exfalso
                      apply hstate
                      rw [← hres]
                  · exfalso
                    rw [← hres] at hput
                    simp at hput
              | false =>
                  rw [show entryConstruct e v (t.getOrCreate hk k a).a =
                    (false, e, (t.getOrCreate hk k a).a.alloc.2) from by
                      unfold entryConstruct
                      rw [hval]
                      dsimp only
                      rw [if_neg (by simp [hal])]] at hres
                  dsimp only at hres
                  rw [if_neg (show ¬ (false = true) by simp)] at hres
                  rw [if_pos hcr] at hres
                  rw [hbIdx] at hres
                  rw [show (t.getOrCreate hk k a).t.buckets.data.getD
                      (t.bucketIdx hk k) Vec.nil =
                      ⟨(bucketAt t (t.bucketIdx hk k)).data ++
                        [⟨k, none⟩], c0⟩ from by
                      rw [hdata, getD_set_self _ _ _ _ hbil]] at hres
                  rw [bucketRemove_concat _ _ _ _ hnotin] at hres
                  dsimp only at hres
                  rw [hdata, List.set_set] at hres
                  split at hres
                  · split at hres
                    · rename_i hb
                      obtain ⟨ts, hm2, hsum, _⟩ :=
                        (beginResize_spec _ _ _).1 hb
                      rw [hm2] at hres
                      subst hres
                      dsimp only
                      unfold UMap.lookup UMap.mainT UMap.secT
                      dsimp only
                      simp only [Option.getD_some]
                      rw [getB_none_of_bucketSum_zero hk ts q hsum]
                      dsimp only
                      rw [hm]
                      dsimp only
                      rw [hmain]
                      simp only [Option.getD_some]
                      refine getB_DW hk _ t ?_ ?_ q
                      · exact bucketAt_set_same_data t _
                          (t.bucketIdx hk k) c0 rfl hbil
                      · exact gNB
                    · exfalso
                      apply hstate
                      rw [← hres]
                  · subst hres
                    dsimp only
                    unfold UMap.lookup UMap.mainT
                    dsimp only
                    rw [hm]
                    dsimp only
                    rw [hmain]
                    simp only [Option.getD_some]
                    refine getB_DW hk _ t ?_ ?_ q
                    · exact bucketAt_set_same_data t _
                        (t.bucketIdx hk k) c0 rfl hbil
                    · exact gNB
            · have hef := hEncr
                (by revert hcr
                    cases (t.getOrCreate hk k a).created <;> simp)
              have hvsk := hVS (t.bucketIdx hk k) e hef
              rw [hval] at hvsk
              simp at hvsk
      · rw [if_neg hok] at hres
        have hTeq := gFailT
          (by revert hok
              cases (t.getOrCreate hk k a).ok <;> simp)
        rw [hTeq] at hres
        split at hres
        · split at hres
          · rename_i hb
            obtain ⟨ts, hm2, hsum, _⟩ := (beginResize_spec _ _ _).1 hb
            rw [hm2] at hres
            subst hres
            dsimp only
            unfold UMap.lookup UMap.mainT UMap.secT
            dsimp only
            simp only [Option.getD_some]
            rw [getB_none_of_bucketSum_zero hk ts q hsum]
            dsimp only
            rw [hm]
            dsimp only
            rw [hmain]
            simp only [Option.getD_some]
          · exfalso
            apply hstate
            rw [← hres]
        · subst hres
          dsimp only
          unfold UMap.lookup UMap.mainT
          dsimp only
          rw [hm]
          dsimp only
          rw [hmain]
  | transfer =>
      unfold MapWF at hwf
      rw [hm] at hwf
      obtain ⟨tm, ts, hmain, hsec, hTWFm, hTWFs, hCLEm, hVSs, hStale⟩ :=
        hwf
      have hmt : m.mainT = tm := by
        unfold UMap.mainT
        rw [hmain]
        rfl
      have hst : m.secT = ts := by
        unfold UMap.secT
        rw [hsec]
        rfl
      have hbil : ts.bucketIdx hk k < ts.buckets.data.length := by
        rw [hTWFs.blen]
        exact Nat.mod_lt _ hTWFs.nbpos
      unfold UMap.put at hres
      rw [hm] at hres
      dsimp only at hres
      rw [hmt, hst] at hres
      obtain ⟨gFail, gNB, gPow, gLen, gOk, gCreated, gFound, gFailT⟩ :=
        getOrCreate_spec hk ts k a hTWFs.nbpos hTWFs.blen
      have hRHS : m.lookup hk q = chain hk tm ts q := by
        unfold UMap.lookup chain
        rw [hm, hmt, hst]
      by_cases hok : (ts.getOrCreate hk k a).ok = true
      · rw [if_pos hok] at hres
        by_cases hcr : (ts.getOrCreate hk k a).created = true
        · rw [if_pos hcr] at hres
          obtain ⟨hbIdx, heIdx, hfind, ⟨c0, hdata⟩, htot⟩ :=
            gCreated hok hcr
          have hnotin : ∀ x ∈ (bucketAt ts (ts.bucketIdx hk k)).data,
              ¬ x.key = k := by
            rw [List.find?_eq_none] at hfind
            intro x hx hxk
            exact hfind x hx (by simpa using hxk)
          cases hgi : tm.getEntryIdx? hk k with
          | some mpos =>
              obtain ⟨hmp1, me, hmeAt, hmeKey, hmeMem⟩ :=
                getEntryIdx_found hk tm k mpos hgi
              cases hmv : me.val with
              | none =>
                  exfalso
                  have hhk := hStale (tm.bucketIdx hk k) me hmeMem hmv
                  rw [hmeKey] at hhk
                  exact not_hasKey_of_find_none hk ts k hfind hhk
              | some w =>
                  rw [hgi] at hres
                  dsimp only at hres
                  rw [hmeAt] at hres
                  dsimp only at hres
                  rw [hbIdx, heIdx] at hres
                  rw [show ((ts.getOrCreate hk k a).t.setEntry
                      (ts.bucketIdx hk k)
                      (bucketAt ts
                        (ts.bucketIdx hk k)).data.length
                      ⟨me.key, me.val⟩).entryAt? (ts.bucketIdx hk k)
                      (bucketAt ts (ts.bucketIdx hk k)).data.length =
                      some ⟨me.key, me.val⟩ from by
                    unfold Table.entryAt?
                    rw [(setEntry_after_create ts _ (ts.bucketIdx hk k)
                      k ⟨me.key, me.val⟩ c0 _ hdata hbil).1,
                      getD_set_self _ _ _ _ hbil]
                    exact List.getElem?_concat_length _ _] at hres
                  dsimp only at hres
                  rw [show entryConstruct ⟨me.key, me.val⟩ v
                      (ts.getOrCreate hk k a).a =
                      (true, ⟨me.key, some v⟩,
                        (ts.getOrCreate hk k a).a) from by
                    unfold entryConstruct
                    dsimp only
                    rw [hmv]] at hres
                  dsimp only at hres
                  rw [if_pos rfl] at hres
                  split at hres
                  · exfalso
                    rw [← hres] at hput
                    simp at hput
                  · exfalso
                    apply hstate
                    rw [← hres]
          | none =>
              rw [hgi] at hres
              dsimp only at hres
              rw [hbIdx, heIdx] at hres
              rw [show (ts.getOrCreate hk k a).t.entryAt?
                  (ts.bucketIdx hk k)
                  (bucketAt ts (ts.bucketIdx hk k)).data.length =
                  some ⟨k, none⟩ from by
                unfold Table.entryAt?
                rw [hdata, getD_set_self _ _ _ _ hbil]
                exact List.getElem?_concat_length _ _] at hres
              dsimp only at hres
              cases hal : (ts.getOrCreate hk k a).a.alloc.1 with
              | true =>
                  rw [show entryConstruct ⟨k, none⟩ v
                      (ts.getOrCreate hk k a).a =
                      (true, ⟨k, some v⟩,
                        (ts.getOrCreate hk k a).a.alloc.2) from by
                    unfold entryConstruct
                    dsimp only
                    rw [if_pos hal]] at hres
                  dsimp only at hres
                  rw [if_pos rfl] at hres
                  split at hres
                  · exfalso
                    rw [← hres] at hput
                    simp at hput
                  · exfalso
                    apply hstate
                    rw [← hres]
              | false =>
                  rw [show entryConstruct ⟨k, none⟩ v
                      (ts.getOrCreate hk k a).a =
                      (false, ⟨k, none⟩,
                        (ts.getOrCreate hk k a).a.alloc.2) from by
                    unfold entryConstruct
                    dsimp only
                    rw [if_neg (by simp [hal])]] at hres
                  dsimp only at hres
                  rw [if_neg (show ¬ (false = true) by simp)] at hres
                  rw [if_pos hcr] at hres
                  rw [show ((ts.getOrCreate hk k a).t.setEntry
                      (ts.bucketIdx hk k)
                      (bucketAt ts
                        (ts.bucketIdx hk k)).data.length
                      ⟨k, none⟩).buckets.data =
                      ts.buckets.data.set (ts.bucketIdx hk k)
                        ⟨(bucketAt ts (ts.bucketIdx hk k)).data ++
                          [⟨k, none⟩], c0⟩ from
                    (setEntry_after_create ts _ (ts.bucketIdx hk k) k
                      ⟨k, none⟩ c0 _ hdata hbil).1] at hres
                  rw [show (ts.buckets.data.set (ts.bucketIdx hk k)
                      (⟨(bucketAt ts (ts.bucketIdx hk k)).data ++
                        [(⟨k, none⟩ : Entry K V)], c0⟩ :
                        Vec (Entry K V))).getD
                      (ts.bucketIdx hk k) Vec.nil =
                      ⟨(bucketAt ts (ts.bucketIdx hk k)).data ++
                        [⟨k, none⟩], c0⟩ from
                    getD_set_self _ _ _ _ hbil] at hres
                  rw [bucketRemove_concat _ _ _ _ hnotin] at hres
                  dsimp only at hres
                  rw [List.set_set] at hres
                  split at hres
                  · rename_i hchunk
                    rw [← hres]
                    dsimp only
                    rw [hRHS]
                    refine transferChunk_lookup hk _ tm _ ts _ rfl
                      rfl rfl hTWFm hTWFs hVSs hStale hCLEm ?_ ?_ ?_
                      hchunk q
                    · exact bucketAt_set_same_data ts _
                        (ts.bucketIdx hk k) c0 rfl hbil
                    · exact gNB
                    · show (ts.buckets.data.set
                        (ts.bucketIdx hk k) _).length =
                        ts.buckets.data.length
                      rw [List.length_set]
                  · exfalso
                    apply hstate
                    rw [← hres]
        · rw [if_neg hcr] at hres
          obtain ⟨hTeq, hhas⟩ := gFound hok
            (by revert hcr
                cases (ts.getOrCreate hk k a).created <;> simp)
          obtain ⟨e, hEntry, hEkey, hEcr, hEncr⟩ :=
            getOrCreate_entry hk ts k a hTWFs.nbpos hTWFs.blen hok
          rw [hEntry] at hres
          dsimp only at hres
          cases hval : e.val with
          | none =>
              exfalso
              have hef := hEncr
                (by revert hcr
                    cases (ts.getOrCreate hk k a).created <;> simp)
              have hvsk := hVSs (ts.bucketIdx hk k) e hef
              rw [hval] at hvsk
              simp at hvsk
          | some w =>
              rw [show entryConstruct e v (ts.getOrCreate hk k a).a =
                (true, ⟨e.key, some v⟩, (ts.getOrCreate hk k a).a)
                from by
                  unfold entryConstruct
                  rw [hval]] at hres
              dsimp only at hres
              rw [if_pos rfl] at hres
              split at hres
              · exfalso
                rw [← hres] at hput
                simp at hput
              · exfalso
                apply hstate
                rw [← hres]
      · rw [if_neg hok] at hres
        have hTeq := gFailT
          (by revert hok
              cases (ts.getOrCreate hk k a).ok <;> simp)
        rw [hTeq] at hres
        split at hres
        · rename_i hchunk
          rw [← hres]
          dsimp only
          rw [hRHS]
          refine transferChunk_lookup hk _ tm _ ts _ rfl rfl rfl
            hTWFm hTWFs hVSs hStale hCLEm ?_ ?_ ?_ hchunk q
          · exact fun bj => rfl
          · rfl
          · rfl
        · exfalso
          apply hstate
          rw [← hres]

/-! ### Completing a transfer: `finishXfer` -/

theorem TWF_of_empty {K V : Type} [DecidableEq K] (hk : K → Nat)
    (t : Table K V) (hsum : bucketSum t = 0)
    (hblen : t.buckets.data.length = t.numBuckets)
    (hpos : 0 < t.numBuckets) : TWF hk t := by
  refine ⟨hblen, hpos, ?_, ?_⟩
  · intro bi hbi x hx
    rw [bucketAt_empty_of_sum_zero _ hsum bi] at hx
    cases hx
  · intro bi hbi
    rw [bucketAt_empty_of_sum_zero _ hsum bi]
    exact List.nodup_nil

theorem ValsSome_of_empty {K V : Type} (t : Table K V)
    (hsum : bucketSum t = 0) : ValsSomeT t := by
  intro bi x hx
  rw [bucketAt_empty_of_sum_zero _ hsum bi] at hx
  cases hx

theorem finishXfer_spec {K V : Type} [DecidableEq K] (hk : K → Nat) :
    ∀ (fuel : Nat) (m : UMap K V) (a : AllocO)
      (out : Bool × UMap K V × AllocO),
      UMap.finishXfer hk fuel m a = out →
      m.state = MState.transfer →
      ∀ tm ts, m.main = some tm → m.secondary = some ts →
      TWF hk tm → TWF hk ts → ValsSomeT ts → StaleInvT hk tm ts →
      CountEQ tm → FrontEmpty tm m.cursor → CountEQ ts →
      a.Ok →
      tm.totalEntries + 2 ≤ fuel →
      out.1 = true ∧
      out.2.1.state = MState.stable ∧
      (∃ ts2, out.2.1.main = some ts2 ∧ out.2.1.secondary = none ∧
        TWF hk ts2 ∧ ValsSomeT ts2 ∧ CountEQ ts2 ∧
        ts2.numBuckets = ts.numBuckets ∧ ts2.power = ts.power ∧
        ts2.buckets.data.length = ts.buckets.data.length ∧
        (∀ q, ts2.getB hk q = chain hk tm ts q)) ∧
      out.2.1.loadFactorPercent = m.loadFactorPercent ∧
      out.2.1.locked = m.locked ∧
      out.2.2.failAt = a.failAt := by
  intro fuel
  induction fuel with
  | zero =>
      intro m a out hout hstT tm ts hmain hsec hTWFm hTWFs hVS hStale
        hEQm hFE hEQs hOk hfuel
      omega
  | succ fuel ih =>
      intro m a out hout hstT tm ts hmain hsec hTWFm hTWFs hVS hStale
        hEQm hFE hEQs hOk hfuel
      unfold UMap.finishXfer at hout
      unfold UMap.transferDone UMap.mainT at hout
      rw [hmain] at hout
      simp only [Option.getD_some] at hout
      by_cases hdone : tm.totalEntries = 0
      · rw [if_pos (show _ = true from decide_eq_true hdone)] at hout
        subst hout
        have hz : bucketSum tm = 0 := by
          unfold CountEQ at hEQm
          omega
        refine ⟨rfl, rfl, ⟨ts, ?_, rfl, hTWFs, hVS, hEQs, rfl, rfl,
          rfl, ?_⟩, rfl, rfl, rfl⟩
        · show m.secondary = some ts
          exact hsec
        · intro q
          exact (chain_collapse hk tm ts q hz).symm
      · rw [if_neg (show ¬ _ = true by simpa using hdone)] at hout
        unfold UMap.transferChunk at hout
        rw [hmain, hsec] at hout
        dsimp only at hout
        obtain ⟨jFail, jNB, jPow, jLen, jWF, jVS, jMono, jCnt, jMnNB,
            jMnPow, jMnLen, jOk, jTrue⟩ :=
          transferAcross_spec hk (tm.numBuckets + 1) tm m.cursor ts
            512 a
            (transferAcross hk (tm.numBuckets + 1) tm m.cursor ts
              512 a)
            rfl hTWFm hTWFs hVS hStale (by omega)
        rw [if_pos (jOk hOk)] at hout
        obtain ⟨kWF, kStale, kChain, kLE, kFE, kEQ, kCnt⟩ :=
          jTrue (jOk hOk)
        have hcnt := kCnt hEQm hFE
        obtain ⟨iOk, iState, ⟨ts2, iMain, iSec, iWF, iVS, iEQ, iNB,
            iPow, iLen, iGet⟩, iLoad, iLock, iFail⟩ :=
          ih _ _ out hout hstT _ _ rfl rfl kWF jWF jVS kStale
            (kEQ hEQm) (kFE hFE) (jCnt hEQs)
            (Ok_of_failAt_eq hOk jFail) (by omega)
        refine ⟨iOk, iState, ⟨ts2, iMain, iSec, iWF, iVS, iEQ,
          iNB.trans jNB, iPow.trans jPow, iLen.trans jLen, ?_⟩,
          iLoad, iLock, iFail.trans jFail⟩
        intro q
        rw [iGet q]
        exact kChain q

/-! ### `reserve` grows the table to the requested prime -/

theorem findPrimeIdx_some (n : Nat) (h1 : 1 ≤ n)
    (h2 : n ≤ 2147483659) :
    ∃ i, findPrimeIdx n = some i ∧ i < 32 ∧
      n ≤ getPrimePowerOf2 i := by
  cases h : findPrimeIdx n with
  | none =>
      exfalso
      unfold findPrimeIdx at h
      rw [List.find?_eq_none] at h
      have h31 := h 31 (by decide)
      simp only [decide_eq_true_eq] at h31
      have hp : getPrimePowerOf2 31 = 2147483659 := by decide
      omega
  | some i =>
      have hc := h
      unfold findPrimeIdx at hc
      refine ⟨i, rfl, ?_, ?_⟩
      · exact List.mem_range.mp (List.mem_of_find?_eq_some hc)
      · simpa using List.find?_some hc

theorem prime_mono : ∀ i < 32, ∀ j < 32, i ≤ j →
    getPrimePowerOf2 i ≤ getPrimePowerOf2 j := by decide

theorem reserve_resize_step {K V : Type} [DecidableEq K] (hk : K → Nat)
    (m1 : UMap K V) (t : Table K V) (i : Nat) (a1 : AllocO)
    (hmain : m1.main = some t) (hTWF : TWF hk t) (hVS : ValsSomeT t)
    (hEQ : CountEQ t) (hOk : a1.Ok) (hi4 : 4 ≤ i) (hi31 : i ≤ 31) :
    (m1.beginResize i a1).1 = true ∧
    ∀ out, UMap.finishXfer hk
        ((m1.beginResize i a1).2.1.mainT.totalEntries + 2)
        (m1.beginResize i a1).2.1 (m1.beginResize i a1).2.2 = out →
      out.1 = true ∧ out.2.1.state = MState.stable ∧
      out.2.1.numBuckets = getPrimePowerOf2 i := by
  obtain ⟨bTrue, bFalse, bFail, bOk⟩ := beginResize_spec m1 i a1
  have hb := bOk hOk hi4 hi31
  refine ⟨hb, ?_⟩
  intro out hout
  obtain ⟨fresh, hm2, hsum, htot0, hfNB, hfLen, hfPow⟩ := bTrue hb
  rw [hm2] at hout
  have hmt2 : ({ m1 with
      secondary := some fresh
      state := MState.transfer
      cursor := 0 } : UMap K V).mainT = t := by
    unfold UMap.mainT
    dsimp only
    rw [hmain]
    rfl
  rw [hmt2] at hout
  have hfpos : 0 < fresh.numBuckets := by
    rw [hfNB]
    exact prime_pos i (by omega)
  obtain ⟨fOk, fState, ⟨ts2, fMain, fSec, fWF, fVS, fEQ, fNB, fPow,
      fLen, fGet⟩, fLoad, fLock, fFail⟩ :=
    finishXfer_spec hk _ _ _ out hout rfl t fresh hmain rfl hTWF
      (TWF_of_empty hk fresh hsum hfLen hfpos)
      (ValsSome_of_empty fresh hsum)
      (fun bi x hx hv => absurd (hVS bi x hx) (by rw [hv]; simp))
      hEQ
      (fun bi h => (Nat.not_lt_zero bi h).elim)
      (by unfold CountEQ; rw [hsum, htot0])
      (Ok_of_failAt_eq hOk bFail)
      (Nat.le_refl _)
  refine ⟨fOk, fState, ?_⟩
  unfold UMap.numBuckets
  rw [fState]
  unfold UMap.mainT
  rw [fMain]
  simp only [Option.getD_some]
  rw [fNB, hfNB]

/-- C6: a successful `reserve(n)` (no allocation fails, the map is
well-formed with exact bookkeeping and is not in the ERROR state)
returns `true`, leaves the map STABLE, and sets the bucket count to
the prime `get_prime_power_of_2` selects for `n` - unless the table
is already at least that large, in which case it is left unchanged;
the bucket count never shrinks. -/
theorem reserve_growth {K V : Type} [DecidableEq K] (hk : K → Nat)
    (m : UMap K V) (n : Nat) (a : AllocO)
    (hrwf : ReserveWF hk m) (hOk : a.Ok)
    (hn1 : 1 ≤ n) (hn2 : n ≤ 2147483659) :
    ∃ i, findPrimeIdx n = some i ∧ n ≤ getPrimePowerOf2 i ∧
      (m.reserve hk n a).1 = true ∧
      (m.reserve hk n a).2.1.state = MState.stable ∧
      (m.reserve hk n a).2.1.numBuckets =
        max m.numBuckets (getPrimePowerOf2 i) := by
  obtain ⟨i, hfi, hi32, hni⟩ := findPrimeIdx_some n hn1 hn2
  refine ⟨i, hfi, hni, ?_⟩
  unfold ReserveWF at hrwf
  unfold UMap.reserve
  cases hm : m.state with
  | error =>
      rw [hm] at hrwf
      exact hrwf.elim
  | stable =>
      rw [hm] at hrwf
      obtain ⟨t, hmain, hTWF, hVS, hEQ, hp4, hp31, hNB⟩ := hrwf
      have hmt : m.mainT = t := by
        unfold UMap.mainT
        rw [hmain]
        rfl
      have hmnb : m.numBuckets = getPrimePowerOf2 t.power := by
        unfold UMap.numBuckets
        rw [hm, hmt, hNB]
      rw [if_neg (show ¬ (MState.stable = MState.error) by simp),
        if_neg (show ¬ (n = 0) by omega)]
      simp only [hfi]
      rw [if_neg (show ¬ (MState.stable = MState.transfer) by simp)]
      rw [if_pos (show (((true, m, a) :
        Bool × UMap K V × AllocO).1 = true) from rfl)]
      dsimp only
      rw [hmt]
      by_cases hle : i ≤ t.power
      · rw [if_pos hle]
        have hmono := prime_mono i hi32 t.power (by omega) hle
        refine ⟨rfl, hm, ?_⟩
        rw [hmnb]
        omega
      · rw [if_neg hle]
        obtain ⟨hb, hstep⟩ := reserve_resize_step hk m t i a hmain
          hTWF hVS hEQ hOk (by omega) (by omega)
        rw [if_pos hb]
        obtain ⟨fOk, fState, fNB⟩ := hstep _ rfl
        refine ⟨fOk, fState, ?_⟩
        rw [fNB, hmnb]
        have hmono := prime_mono t.power (by omega) i hi32 (by omega)
        omega
  | transfer =>
      rw [hm] at hrwf
      obtain ⟨tm, ts, hmain, hsec, hTWFm, hTWFs, hVSs, hStale, hEQm,
        hEQs, hFE, hp4, hp31, hNB⟩ := hrwf
      have hmt : m.mainT = tm := by
        unfold UMap.mainT
        rw [hmain]
        rfl
      have hmnb : m.numBuckets = getPrimePowerOf2 ts.power := by
        unfold UMap.numBuckets
        rw [hm]
        unfold UMap.secT
        rw [hsec]
        simp only [Option.getD_some]
        exact hNB
      rw [if_neg (show ¬ (MState.transfer = MState.error) by simp),
        if_neg (show ¬ (n = 0) by omega)]
      simp only [hfi]
      rw [if_pos (show True from trivial)]
      rw [hmt]
      obtain ⟨fOk, fState, ⟨ts2, fMain, fSec, fWF, fVS, fEQ, fNB,
          fPow, fLen, fGet⟩, fLoad, fLock, fFail⟩ :=
        finishXfer_spec hk (tm.totalEntries + 2) m a _ rfl hm tm ts
          hmain hsec hTWFm hTWFs hVSs hStale hEQm hFE hEQs hOk
          (Nat.le_refl _)
      rw [if_pos fOk]
      have hPow : (UMap.finishXfer hk (tm.totalEntries + 2) m
          a).2.1.mainT.power = ts.power := by
        unfold UMap.mainT
        rw [fMain]
        simp only [Option.getD_some]
        exact fPow
      rw [hPow]
      by_cases hle : i ≤ ts.power
      · rw [if_pos hle]
        have hmono := prime_mono i hi32 ts.power (by omega) hle
        refine ⟨rfl, fState, ?_⟩
        have hnb1 : (UMap.finishXfer hk (tm.totalEntries + 2) m
            a).2.1.numBuckets = getPrimePowerOf2 ts.power := by
          unfold UMap.numBuckets
          rw [fState]
          unfold UMap.mainT
          rw [fMain]
          simp only [Option.getD_some]
          rw [fNB, hNB]
        rw [hnb1, hmnb]
        omega
      · rw [if_neg hle]
        obtain ⟨hb, hstep⟩ := reserve_resize_step hk
          (UMap.finishXfer hk (tm.totalEntries + 2) m a).2.1 ts2 i
          (UMap.finishXfer hk (tm.totalEntries + 2) m a).2.2
          fMain fWF fVS fEQ (Ok_of_failAt_eq hOk fFail)
          (by omega) (by omega)
        rw [if_pos hb]
        obtain ⟨gOk, gState, gNB2⟩ := hstep _ rfl
        refine ⟨gOk, gState, ?_⟩
        rw [gNB2, hmnb]
        have hmono := prime_mono ts.power (by omega) i hi32 (by omega)
        omega

theorem reserve_growth_witness :
    c6wBase.numBuckets = 17 ∧
    ∃ i, findPrimeIdx 24 = some i ∧ 24 ≤ getPrimePowerOf2 i ∧
      (c6wBase.reserve fnv1aU32 24 c6wA).1 = true ∧
      (c6wBase.reserve fnv1aU32 24 c6wA).2.1.state = MState.stable ∧
      (c6wBase.reserve fnv1aU32 24 c6wA).2.1.numBuckets =
        max c6wBase.numBuckets (getPrimePowerOf2 i) :=
  ⟨by decide,
    reserve_growth fnv1aU32 c6wBase 24 c6wA
      ⟨c6wT, rfl,
        TWF_of_empty fnv1aU32 c6wT (by decide) (by decide) (by decide),
        ValsSome_of_empty c6wT (by decide),
        by unfold CountEQ; decide, by decide, by decide, by decide⟩
      (fun i => rfl) (by decide) (by decide)⟩

theorem put_failure_atomic_witness :
    (c10wBase.put fnv1aU32 0 5 c10wA).1 = false ∧
    (c10wBase.put fnv1aU32 0 5 c10wA).2.1.state ≠ MState.error ∧
    (c10wBase.put fnv1aU32 0 5 c10wA).2.1.lookup fnv1aU32 0 =
      c10wBase.lookup fnv1aU32 0 :=
  ⟨by decide, by decide,
    put_failure_atomic fnv1aU32 c10wBase 0 5 c10wA _ rfl
      ⟨c10wT, rfl, rfl,
        TWF_of_empty fnv1aU32 c10wT (by decide) (by decide) (by decide),
        ValsSome_of_empty c10wT (by decide),
        by unfold CountLE; decide⟩
      (by decide) (by decide) 0⟩

/-- C1 (code bug): in the run above the map never enters ERROR, yet
after `put(5, 9999)` followed by `del(5)` (which returns true), `get(5)`
still returns the value 9999 — the claim requires null after a delete
of the most recent put. -/
theorem map_del_after_put_stale_value :
    c1Base.1.state = MState.transfer ∧
    c1AfterPut.1 = true ∧
    c1AfterDel.1 = true ∧
    c1AfterDel.2.1.state ≠ MState.error ∧
    c1AfterGet.1 = some 9999 ∧
    c1AfterGet.1 ≠ none ∧
    c1AfterGet.2.1.state = MState.stable := by
  decide

/-- C6 counterexample: on a non-ERROR (TRANSFER) map, `reserve(100)`
hits an allocation failure while transferring entries; it returns false
as the claim says, but the map stays in TRANSFER — it does **not**
become ERROR (`reserve` returns without setting the state, unlike the
`begin_resize` failure path). -/
theorem reserve_transfer_fail_not_error_cx :
    c6cxXfer.2.1.state = MState.transfer ∧
    c6cxRes.1 = false ∧
    c6cxRes.2.1.state = MState.transfer ∧
    c6cxRes.2.1.state ≠ MState.error := by
  decide

/-! ### C8: the ERROR state latches -/

/-- C8: on a map in the ERROR state, every operation fails without
modifying anything: `get` returns null, `contains` false, `put`, `del`
and `reserve` false, each returning the map (still ERROR) and the
allocator untouched. -/
theorem error_state_latch {K V : Type} [DecidableEq K] (hk : K → Nat)
    (m : UMap K V) (k : K) (v : V) (n : Nat) (a : AllocO)
    (h : m.state = MState.error) :
    UMap.get hk m k a = (none, m, a) ∧
    UMap.contains hk m k = false ∧
    UMap.put hk m k v a = (false, m, a) ∧
    UMap.del hk m k a = (false, m, a) ∧
    UMap.reserve hk m n a = (false, m, a) := by
  unfold UMap.get UMap.contains UMap.put UMap.del UMap.reserve
  rw [h]
  simp

/-- Witness for `error_state_latch` on the concrete ERROR map. -/
theorem error_state_latch_witness :
    UMap.get fnv1aU32 errMap.1 3 errMap.2 = (none, errMap.1, errMap.2) ∧
    UMap.contains fnv1aU32 errMap.1 3 = false ∧
    UMap.put fnv1aU32 errMap.1 3 7 errMap.2 = (false, errMap.1, errMap.2) ∧
    UMap.del fnv1aU32 errMap.1 3 errMap.2 = (false, errMap.1, errMap.2) ∧
    UMap.reserve fnv1aU32 errMap.1 24 errMap.2 =
      (false, errMap.1, errMap.2) :=
  error_state_latch fnv1aU32 errMap.1 3 7 24 errMap.2 (by decide)

/-- C10 counterexample: a `put(1, 2000)` on a non-ERROR map holding
`0 ↦ 1000` returns false because the per-value allocation fails — but
the same call's partial transfer also hits an allocation failure, the
map latches ERROR, and the previously stored value under key 0 is no
longer retrievable: the call is not atomic. -/
theorem put_failure_not_atomic_cx :
    c10cxBase.2.1.state ≠ MState.error ∧
    UMap.lookup fnv1aU32 c10cxBase.2.1 0 = some 1000 ∧
    c10cxPut.1 = false ∧
    UMap.lookup fnv1aU32 c10cxPut.2.1 0 = none := by
  decide

end HM
